import Mathlib

/-! # Credential storage of agent-linear-cli (internal/auth/storage.go)

A shallow embedding of the two `Storage` backends of `internal/auth/storage.go`:

* `MemoryStorage`, a process-local `map[string]string`;
* `KeyringStorage`, which delegates to the platform credential service
  (`github.com/zalando/go-keyring`).

Go values are embedded as follows.

* `string` is `String`; the conversions `string(data)` and `[]byte(data)` are the identity.
* `error` is `Option GoError`, with `none` for `nil`.
* `*TokenInfo` is `Option TokenInfo`, with `none` for `nil`.
* `map[string]string` is a finite partial function `String → Option String`; two maps are equal
  when they hold the same entries.  The map of a `MemoryStorage` is never `nil`: the field is
  unexported and `NewMemoryStorage` is the only constructor.
* A method with a pointer receiver that mutates its receiver returns the new receiver next to
  its Go results.
* The `TokenInfo` struct is declared outside `storage.go`, and `json.Marshal` / `json.Unmarshal`
  belong to `encoding/json`; both enter as a parameter `J : JSON TokenInfo`.  The codec of
  `encoding/json` itself, at a struct of string fields, is `EncodingJSON.codec`.
* The package `keyring` talks to the operating system; it enters as a parameter
  `P : Keyring σ`, a state-passing description of the platform service.
-/

namespace Auth

/-! ## Constants -/

/-- Key name of the API key entry (`keyAPIKey`). -/
def keyAPIKey : String := "api_key"

/-- Key name of the OAuth token entry (`keyTokenInfo`). -/
def keyTokenInfo : String := "token_info"

/-- Key name of the OAuth client id entry (`keyClientID`). -/
def keyClientID : String := "client_id"

/-- Key name of the OAuth client secret entry (`keyClientSecret`). -/
def keyClientSecret : String := "client_secret"

/-! ## Errors -/

/-- An error value produced by `encoding/json` (syntax error, type mismatch, unsupported type). -/
structure JSONError where
  msg : String
deriving DecidableEq, Repr

/-- Go `error` values that can flow through the storage layer.  `ErrNotFound` is the sentinel
`keyring.ErrNotFound`; `json` boxes an error of `encoding/json`; `other` is any further error
value (permission denied, service unavailable, ...); `wrap` is an error whose `Unwrap` method
returns `inner`. -/
inductive GoError where
  | ErrNotFound
  | json (e : JSONError)
  | other (msg : String)
  | wrap (msg : String) (inner : GoError)
deriving DecidableEq, Repr

/-- Go `errors.Is(err, target)` on a non-nil `err`: `err` equals `target`, or some error in its
`Unwrap` chain does. -/
def GoError.is : GoError → GoError → Bool
  | .wrap msg inner, target => decide (GoError.wrap msg inner = target) || GoError.is inner target
  | e, target => decide (e = target)

/-- Go `errors.Is(err, target)`; a `nil` error matches no target. -/
def errorsIs : Option GoError → GoError → Bool
  | none, _ => false
  | some e, target => e.is target

/-! ## JSON codec of the token envelope -/

/-- The pair `json.Marshal` / `json.Unmarshal` at the type `TokenInfo`.  `Marshal` receives the
pointer passed to `SetTokenInfo` (possibly `nil`); `Unmarshal` decodes into a fresh zero value
and yields the decoded struct, or the error. -/
structure JSON (TokenInfo : Type) where
  Marshal : Option TokenInfo → Except JSONError String
  Unmarshal : String → Except JSONError TokenInfo

/-! ## Go maps -/

/-- Go `map[string]string`. -/
abbrev GoMap := String → Option String

/-- The empty map, `make(map[string]string)`. -/
def GoMap.make : GoMap := fun _ => none

/-- The assignment `m[k] = v`. -/
def GoMap.insert (m : GoMap) (k v : String) : GoMap :=
  fun j => if j = k then some v else m j

/-- The builtin `delete(m, k)`. -/
def GoMap.delete (m : GoMap) (k : String) : GoMap :=
  fun j => if j = k then none else m j

/-! ## In-memory backend -/

/-- `MemoryStorage` implements `Storage` using an in-memory map. -/
structure MemoryStorage where
  data : GoMap

/-- `NewMemoryStorage` creates a new in-memory storage. -/
def NewMemoryStorage : MemoryStorage := { data := GoMap.make }

namespace MemoryStorage

def GetAPIKey (s : MemoryStorage) : String × Option GoError :=
  match s.data keyAPIKey with
  | some v => (v, none)
  | none => ("", some GoError.ErrNotFound)

def SetAPIKey (s : MemoryStorage) (key : String) : Option GoError × MemoryStorage :=
  (none, { data := s.data.insert keyAPIKey key })

def DeleteAPIKey (s : MemoryStorage) : Option GoError × MemoryStorage :=
  (none, { data := s.data.delete keyAPIKey })

def GetTokenInfo {TokenInfo : Type} (J : JSON TokenInfo) (s : MemoryStorage) :
    Option TokenInfo × Option GoError :=
  match s.data keyTokenInfo with
  | none => (none, some GoError.ErrNotFound)
  | some data =>
    match J.Unmarshal data with
    | .error err => (none, some (GoError.json err))
    | .ok info => (some info, none)

def SetTokenInfo {TokenInfo : Type} (J : JSON TokenInfo) (s : MemoryStorage)
    (info : Option TokenInfo) : Option GoError × MemoryStorage :=
  match J.Marshal info with
  | .error err => (some (GoError.json err), s)
  | .ok data => (none, { data := s.data.insert keyTokenInfo data })

def DeleteTokenInfo (s : MemoryStorage) : Option GoError × MemoryStorage :=
  (none, { data := s.data.delete keyTokenInfo })

def GetClientID (s : MemoryStorage) : String × Option GoError :=
  match s.data keyClientID with
  | some v => (v, none)
  | none => ("", some GoError.ErrNotFound)

def SetClientID (s : MemoryStorage) (id : String) : Option GoError × MemoryStorage :=
  (none, { data := s.data.insert keyClientID id })

def DeleteClientID (s : MemoryStorage) : Option GoError × MemoryStorage :=
  (none, { data := s.data.delete keyClientID })

def GetClientSecret (s : MemoryStorage) : String × Option GoError :=
  match s.data keyClientSecret with
  | some v => (v, none)
  | none => ("", some GoError.ErrNotFound)

def SetClientSecret (s : MemoryStorage) (secret : String) : Option GoError × MemoryStorage :=
  (none, { data := s.data.insert keyClientSecret secret })

def DeleteClientSecret (s : MemoryStorage) : Option GoError × MemoryStorage :=
  (none, { data := s.data.delete keyClientSecret })

end MemoryStorage

/-! ## The twelve operations of the `Storage` interface -/

/-- The four secret kinds. -/
inductive Kind where
  | api_key
  | token_info
  | client_id
  | client_secret
deriving DecidableEq, Repr

/-- The key name under which a kind is stored. -/
def Kind.key : Kind → String
  | .api_key => keyAPIKey
  | .token_info => keyTokenInfo
  | .client_id => keyClientID
  | .client_secret => keyClientSecret

/-- A call of one of the twelve methods of the `Storage` interface, with its argument. -/
inductive Op (TokenInfo : Type) where
  | GetAPIKey
  | SetAPIKey (key : String)
  | DeleteAPIKey
  | GetTokenInfo
  | SetTokenInfo (info : Option TokenInfo)
  | DeleteTokenInfo
  | GetClientID
  | SetClientID (id : String)
  | DeleteClientID
  | GetClientSecret
  | SetClientSecret (secret : String)
  | DeleteClientSecret

/-- What a `Storage` method returns: `(string, error)`, `(*TokenInfo, error)` or `error`. -/
inductive Result (TokenInfo : Type) where
  | str (v : String) (err : Option GoError)
  | tok (info : Option TokenInfo) (err : Option GoError)
  | err (e : Option GoError)

/-- The get method of a kind. -/
def Op.get {TokenInfo : Type} : Kind → Op TokenInfo
  | .api_key => .GetAPIKey
  | .token_info => .GetTokenInfo
  | .client_id => .GetClientID
  | .client_secret => .GetClientSecret

/-- The delete method of a kind. -/
def Op.delete {TokenInfo : Type} : Kind → Op TokenInfo
  | .api_key => .DeleteAPIKey
  | .token_info => .DeleteTokenInfo
  | .client_id => .DeleteClientID
  | .client_secret => .DeleteClientSecret

/-- Whether the call is the set method of kind `k`. -/
def Op.isSet {TokenInfo : Type} : Op TokenInfo → Kind → Bool
  | .SetAPIKey _, .api_key => true
  | .SetTokenInfo _, .token_info => true
  | .SetClientID _, .client_id => true
  | .SetClientSecret _, .client_secret => true
  | _, _ => false

/-- The kind whose entry a call addresses. -/
def Op.kind {TokenInfo : Type} : Op TokenInfo → Kind
  | .GetAPIKey => .api_key
  | .SetAPIKey _ => .api_key
  | .DeleteAPIKey => .api_key
  | .GetTokenInfo => .token_info
  | .SetTokenInfo _ => .token_info
  | .DeleteTokenInfo => .token_info
  | .GetClientID => .client_id
  | .SetClientID _ => .client_id
  | .DeleteClientID => .client_id
  | .GetClientSecret => .client_secret
  | .SetClientSecret _ => .client_secret
  | .DeleteClientSecret => .client_secret

/-- The result of a get that fails with `keyring.ErrNotFound`: the empty string for the three
string kinds, a `nil` envelope for `token_info`. -/
def Result.notFound {TokenInfo : Type} : Kind → Result TokenInfo
  | .api_key => .str "" (some GoError.ErrNotFound)
  | .token_info => .tok none (some GoError.ErrNotFound)
  | .client_id => .str "" (some GoError.ErrNotFound)
  | .client_secret => .str "" (some GoError.ErrNotFound)

/-- The error component of a result. -/
def Result.error {TokenInfo : Type} : Result TokenInfo → Option GoError
  | .str _ e => e
  | .tok _ e => e
  | .err e => e

namespace MemoryStorage

/-- Method dispatch on a `*MemoryStorage`: the result of the call and the storage after it. -/
def step {TokenInfo : Type} (J : JSON TokenInfo) (s : MemoryStorage) :
    Op TokenInfo → Result TokenInfo × MemoryStorage
  | .GetAPIKey => (.str s.GetAPIKey.1 s.GetAPIKey.2, s)
  | .SetAPIKey key => (.err (s.SetAPIKey key).1, (s.SetAPIKey key).2)
  | .DeleteAPIKey => (.err s.DeleteAPIKey.1, s.DeleteAPIKey.2)
  | .GetTokenInfo => (.tok (s.GetTokenInfo J).1 (s.GetTokenInfo J).2, s)
  | .SetTokenInfo info => (.err (s.SetTokenInfo J info).1, (s.SetTokenInfo J info).2)
  | .DeleteTokenInfo => (.err s.DeleteTokenInfo.1, s.DeleteTokenInfo.2)
  | .GetClientID => (.str s.GetClientID.1 s.GetClientID.2, s)
  | .SetClientID id => (.err (s.SetClientID id).1, (s.SetClientID id).2)
  | .DeleteClientID => (.err s.DeleteClientID.1, s.DeleteClientID.2)
  | .GetClientSecret => (.str s.GetClientSecret.1 s.GetClientSecret.2, s)
  | .SetClientSecret secret => (.err (s.SetClientSecret secret).1, (s.SetClientSecret secret).2)
  | .DeleteClientSecret => (.err s.DeleteClientSecret.1, s.DeleteClientSecret.2)

/-- The storage after a sequence of calls. -/
def run {TokenInfo : Type} (J : JSON TokenInfo) : MemoryStorage → List (Op TokenInfo) →
    MemoryStorage
  | s, [] => s
  | s, op :: ops => run J (s.step J op).2 ops

/-- The results of a sequence of calls, in order. -/
def exec {TokenInfo : Type} (J : JSON TokenInfo) : MemoryStorage → List (Op TokenInfo) →
    List (Result TokenInfo)
  | _, [] => []
  | s, op :: ops => (s.step J op).1 :: exec J (s.step J op).2 ops

/-- The get method of kind `k`. -/
def Get {TokenInfo : Type} (J : JSON TokenInfo) (s : MemoryStorage) (k : Kind) :
    Result TokenInfo :=
  (s.step J (Op.get k)).1

/-- The delete method of kind `k`. -/
def Delete (s : MemoryStorage) : Kind → Option GoError × MemoryStorage
  | .api_key => s.DeleteAPIKey
  | .token_info => s.DeleteTokenInfo
  | .client_id => s.DeleteClientID
  | .client_secret => s.DeleteClientSecret

end MemoryStorage

/-! ## Platform credential service -/

/-- The functions `keyring.Get`, `keyring.Set` and `keyring.Delete` of go-keyring, as
transitions of a platform state `σ`: each takes the state, the service name and the key name
(and the value, for `Set`) and yields its Go results and the next state. -/
structure Keyring (σ : Type) where
  Get : σ → String → String → (String × Option GoError) × σ
  Set : σ → String → String → String → Option GoError × σ
  Delete : σ → String → String → Option GoError × σ

/-- `KeyringStorage` implements `Storage` using the system keyring. -/
structure KeyringStorage where
  service : String

/-- `NewKeyringStorage` creates a new keyring-based storage.  The package constant `ServiceName`
is declared outside `storage.go` and is a parameter here. -/
def NewKeyringStorage (ServiceName : String) : KeyringStorage := { service := ServiceName }

namespace KeyringStorage

variable {σ : Type} {TokenInfo : Type}

/-- `GetAPIKey` retrieves the stored API key. -/
def GetAPIKey (P : Keyring σ) (s : KeyringStorage) (w : σ) : (String × Option GoError) × σ :=
  P.Get w s.service keyAPIKey

/-- `SetAPIKey` stores an API key. -/
def SetAPIKey (P : Keyring σ) (s : KeyringStorage) (w : σ) (key : String) :
    Option GoError × σ :=
  P.Set w s.service keyAPIKey key

/-- `DeleteAPIKey` removes the stored API key. -/
def DeleteAPIKey (P : Keyring σ) (s : KeyringStorage) (w : σ) : Option GoError × σ :=
  match P.Delete w s.service keyAPIKey with
  | (err, w') => if errorsIs err GoError.ErrNotFound then (none, w') else (err, w')

/-- `GetTokenInfo` retrieves stored OAuth token info. -/
def GetTokenInfo (P : Keyring σ) (J : JSON TokenInfo) (s : KeyringStorage) (w : σ) :
    (Option TokenInfo × Option GoError) × σ :=
  match P.Get w s.service keyTokenInfo with
  | ((_, some err), w') => ((none, some err), w')
  | ((data, none), w') =>
    match J.Unmarshal data with
    | .error err => ((none, some (GoError.json err)), w')
    | .ok info => ((some info, none), w')

/-- `SetTokenInfo` stores OAuth token info. -/
def SetTokenInfo (P : Keyring σ) (J : JSON TokenInfo) (s : KeyringStorage) (w : σ)
    (info : Option TokenInfo) : Option GoError × σ :=
  match J.Marshal info with
  | .error err => (some (GoError.json err), w)
  | .ok data => P.Set w s.service keyTokenInfo data

/-- `DeleteTokenInfo` removes stored OAuth token info. -/
def DeleteTokenInfo (P : Keyring σ) (s : KeyringStorage) (w : σ) : Option GoError × σ :=
  match P.Delete w s.service keyTokenInfo with
  | (err, w') => if errorsIs err GoError.ErrNotFound then (none, w') else (err, w')

/-- `GetClientID` retrieves the stored client ID. -/
def GetClientID (P : Keyring σ) (s : KeyringStorage) (w : σ) : (String × Option GoError) × σ :=
  P.Get w s.service keyClientID

/-- `SetClientID` stores a client ID. -/
def SetClientID (P : Keyring σ) (s : KeyringStorage) (w : σ) (id : String) :
    Option GoError × σ :=
  P.Set w s.service keyClientID id

/-- `DeleteClientID` removes the stored client ID. -/
def DeleteClientID (P : Keyring σ) (s : KeyringStorage) (w : σ) : Option GoError × σ :=
  match P.Delete w s.service keyClientID with
  | (err, w') => if errorsIs err GoError.ErrNotFound then (none, w') else (err, w')

/-- `GetClientSecret` retrieves the stored client secret. -/
def GetClientSecret (P : Keyring σ) (s : KeyringStorage) (w : σ) :
    (String × Option GoError) × σ :=
  P.Get w s.service keyClientSecret

/-- `SetClientSecret` stores a client secret. -/
def SetClientSecret (P : Keyring σ) (s : KeyringStorage) (w : σ) (secret : String) :
    Option GoError × σ :=
  P.Set w s.service keyClientSecret secret

/-- `DeleteClientSecret` removes the stored client secret. -/
def DeleteClientSecret (P : Keyring σ) (s : KeyringStorage) (w : σ) : Option GoError × σ :=
  match P.Delete w s.service keyClientSecret with
  | (err, w') => if errorsIs err GoError.ErrNotFound then (none, w') else (err, w')

/-- Method dispatch on a `*KeyringStorage`: the result of the call and the platform state
after it. -/
def step (P : Keyring σ) (J : JSON TokenInfo) (s : KeyringStorage) (w : σ) :
    Op TokenInfo → Result TokenInfo × σ
  | .GetAPIKey => (.str (s.GetAPIKey P w).1.1 (s.GetAPIKey P w).1.2, (s.GetAPIKey P w).2)
  | .SetAPIKey key => (.err (s.SetAPIKey P w key).1, (s.SetAPIKey P w key).2)
  | .DeleteAPIKey => (.err (s.DeleteAPIKey P w).1, (s.DeleteAPIKey P w).2)
  | .GetTokenInfo =>
    (.tok (s.GetTokenInfo P J w).1.1 (s.GetTokenInfo P J w).1.2, (s.GetTokenInfo P J w).2)
  | .SetTokenInfo info => (.err (s.SetTokenInfo P J w info).1, (s.SetTokenInfo P J w info).2)
  | .DeleteTokenInfo => (.err (s.DeleteTokenInfo P w).1, (s.DeleteTokenInfo P w).2)
  | .GetClientID => (.str (s.GetClientID P w).1.1 (s.GetClientID P w).1.2, (s.GetClientID P w).2)
  | .SetClientID id => (.err (s.SetClientID P w id).1, (s.SetClientID P w id).2)
  | .DeleteClientID => (.err (s.DeleteClientID P w).1, (s.DeleteClientID P w).2)
  | .GetClientSecret =>
    (.str (s.GetClientSecret P w).1.1 (s.GetClientSecret P w).1.2, (s.GetClientSecret P w).2)
  | .SetClientSecret secret =>
    (.err (s.SetClientSecret P w secret).1, (s.SetClientSecret P w secret).2)
  | .DeleteClientSecret => (.err (s.DeleteClientSecret P w).1, (s.DeleteClientSecret P w).2)

/-- The results of a sequence of calls, in order. -/
def exec (P : Keyring σ) (J : JSON TokenInfo) (s : KeyringStorage) :
    σ → List (Op TokenInfo) → List (Result TokenInfo)
  | _, [] => []
  | w, op :: ops => (s.step P J w op).1 :: exec P J s (s.step P J w op).2 ops

/-- The delete method of kind `k`. -/
def Delete (P : Keyring σ) (s : KeyringStorage) (w : σ) : Kind → Option GoError × σ
  | .api_key => s.DeleteAPIKey P w
  | .token_info => s.DeleteTokenInfo P w
  | .client_id => s.DeleteClientID P w
  | .client_secret => s.DeleteClientSecret P w

end KeyringStorage

/-! ## Platform instances -/

/-- The state of the ideal credential service: the value stored under a service name and a
key name, if any. -/
abbrev IdealState := String → String → Option String

/-- The ideal credential service with no entry. -/
def IdealState.empty : IdealState := fun _ _ => none

/-- The ideal credential service: a key/value map over (service, key) pairs.  `Get` and `Delete`
of a missing entry report `keyring.ErrNotFound`; every other call succeeds. -/
def idealKeyring : Keyring IdealState where
  Get w service key :=
    match w service key with
    | some v => ((v, none), w)
    | none => (("", some GoError.ErrNotFound), w)
  Set w service key value :=
    (none, fun sv j => if sv = service ∧ j = key then some value else w sv j)
  Delete w service key :=
    match w service key with
    | some _ => (none, fun sv j => if sv = service ∧ j = key then none else w sv j)
    | none => (some GoError.ErrNotFound, w)

/-- A credential service that refuses every call with the same error and stores nothing. -/
def failingKeyring (e : GoError) : Keyring Unit where
  Get _ _ _ := (("", some e), ())
  Set _ _ _ _ := (some e, ())
  Delete _ _ _ := (some e, ())

/-- A call received by the platform credential service. -/
inductive Call where
  | Get (service key : String)
  | Set (service key value : String)
  | Delete (service key : String)
deriving DecidableEq, Repr

/-- The service `P` with a log of the calls it received, oldest first. -/
def Keyring.traced {σ : Type} (P : Keyring σ) : Keyring (List Call × σ) where
  Get w service key :=
    ((P.Get w.2 service key).1, (w.1 ++ [Call.Get service key], (P.Get w.2 service key).2))
  Set w service key value :=
    ((P.Set w.2 service key value).1,
      (w.1 ++ [Call.Set service key value], (P.Set w.2 service key value).2))
  Delete w service key :=
    ((P.Delete w.2 service key).1,
      (w.1 ++ [Call.Delete service key], (P.Delete w.2 service key).2))

/-- The call that the spec assigns to each operation of the OS backend: the platform function
of the same name, addressed by the fixed service name and the identifier of the kind.  A
`SetTokenInfo` whose envelope does not serialize reaches no platform function. -/
def specCall {TokenInfo : Type} (J : JSON TokenInfo) (service : String) :
    Op TokenInfo → List Call
  | .GetAPIKey => [Call.Get service "api_key"]
  | .SetAPIKey key => [Call.Set service "api_key" key]
  | .DeleteAPIKey => [Call.Delete service "api_key"]
  | .GetTokenInfo => [Call.Get service "token_info"]
  | .SetTokenInfo info =>
    match J.Marshal info with
    | .ok data => [Call.Set service "token_info" data]
    | .error _ => []
  | .DeleteTokenInfo => [Call.Delete service "token_info"]
  | .GetClientID => [Call.Get service "client_id"]
  | .SetClientID id => [Call.Set service "client_id" id]
  | .DeleteClientID => [Call.Delete service "client_id"]
  | .GetClientSecret => [Call.Get service "client_secret"]
  | .SetClientSecret secret => [Call.Set service "client_secret" secret]
  | .DeleteClientSecret => [Call.Delete service "client_secret"]

/-! ## A concrete token envelope and codec

The struct `TokenInfo` is not part of `storage.go`.  The following record and codec instantiate
the parameters `TokenInfo` and `J` on concrete inputs. -/

/-- Modelled from the spec: the `TokenInfo` struct, declared outside `storage.go`.  An access
token, with a refresh token and an expiry timestamp as auxiliary fields. -/
structure SampleTokenInfo where
  AccessToken : String
  RefreshToken : String
  Expiry : String
deriving DecidableEq, Repr

namespace SampleTokenInfo

/-- Remove the expected leading characters, if present. -/
def expect : List Char → List Char → Option (List Char)
  | [], cs => some cs
  | _ :: _, [] => none
  | p :: ps, c :: cs => if p = c then expect ps cs else none

/-- Split at the first `;`: the characters before it and the characters after it. -/
def field : List Char → Option (List Char × List Char)
  | [] => none
  | c :: cs =>
    if c = ';' then some ([], cs)
    else
      match field cs with
      | some (f, rest) => some (c :: f, rest)
      | none => none

/-- Field-keyed text form `access_token=..;refresh_token=..;expiry=..;` of an envelope. -/
def render (t : SampleTokenInfo) : String :=
  "access_token=" ++ t.AccessToken ++ ";refresh_token=" ++ t.RefreshToken
    ++ ";expiry=" ++ t.Expiry ++ ";"

/-- Parse the field-keyed text form. -/
def parse (cs : List Char) : Option SampleTokenInfo :=
  match expect "access_token=".data cs with
  | none => none
  | some cs1 =>
    match field cs1 with
    | none => none
    | some (a, cs2) =>
      match expect "refresh_token=".data cs2 with
      | none => none
      | some cs3 =>
        match field cs3 with
        | none => none
        | some (r, cs4) =>
          match expect "expiry=".data cs4 with
          | none => none
          | some cs5 =>
            match field cs5 with
            | some (e, []) => some { AccessToken := String.mk a, RefreshToken := String.mk r,
                                     Expiry := String.mk e }
            | _ => none

/-- A codec for `SampleTokenInfo`.  A `nil` pointer is written `null`, which reads back as the
zero value.  A field containing the separator `;` is not representable and makes `Marshal`
fail; text that does not parse makes `Unmarshal` fail. -/
def codec : JSON SampleTokenInfo where
  Marshal
    | none => .ok "null"
    | some t =>
      if ';' ∈ t.AccessToken.data ∨ ';' ∈ t.RefreshToken.data ∨ ';' ∈ t.Expiry.data then
        .error { msg := "unsupported value" }
      else .ok (render t)
  Unmarshal data :=
    if data = "null" then .ok { AccessToken := "", RefreshToken := "", Expiry := "" }
    else
      match parse data.data with
      | some t => .ok t
      | none => .error { msg := "invalid character" }

end SampleTokenInfo

/-! ## The codec of `encoding/json` at the token envelope

`json.Marshal` and `json.Unmarshal` (Go 1.22 and later) at a struct of three string fields.  The
fields are Go strings, which need not be valid UTF-8; the JSON text that `json.Marshal` writes
is always valid UTF-8 and is a `String`.  An error of the package is identified by its class
(syntax error, type error) only. -/

/-- What `utf8.DecodeRuneInString` finds at one position of a Go string: a well-formed code
point, or a byte that belongs to no well-formed UTF-8 sequence (which Go decodes as U+FFFD of
width 1). -/
inductive Utf8Unit where
  | rune (c : Char)
  | invalid (b : Nat)
deriving DecidableEq, Repr

/-- A Go `string` that need not be valid UTF-8, as the sequence of its decoding units. -/
abbrev GoString := List Utf8Unit

/-- The Go string with the code points of `s`. -/
def GoString.ofString (s : String) : GoString := s.data.map Utf8Unit.rune

/-- Go `utf8.ValidString(s)`. -/
def GoString.valid : GoString → Bool
  | [] => true
  | .rune _ :: us => GoString.valid us
  | .invalid _ :: _ => false

/-- Modelled from the spec: the `TokenInfo` struct, declared outside `storage.go`.  An access
token, with a refresh token and an expiry timestamp as auxiliary fields, all strings, under the
JSON keys `access_token`, `refresh_token` and `expiry`. -/
structure SpecTokenInfo where
  AccessToken : GoString
  RefreshToken : GoString
  Expiry : GoString
deriving DecidableEq, Repr

namespace EncodingJSON

/-- The double quote, U+0022. -/
def quote : Char := Char.ofNat 34

/-- The backslash, U+005C. -/
def backslash : Char := Char.ofNat 92

/-- The opening brace, U+007B. -/
def lbrace : Char := Char.ofNat 123

/-- The closing brace, U+007D. -/
def rbrace : Char := Char.ofNat 125

/-- The opening bracket, U+005B. -/
def lbracket : Char := Char.ofNat 91

/-- The closing bracket, U+005D. -/
def rbracket : Char := Char.ofNat 93

/-- The colon, U+003A. -/
def colon : Char := Char.ofNat 58

/-- The comma, U+002C. -/
def comma : Char := Char.ofNat 44

/-- The table `hex` of the encoder. -/
def hex (n : Nat) : Char := "0123456789abcdef".data.getD n '0'

/-- The text that the encoder writes for one unit of a string, with HTML escaping on as in
`json.Marshal`: an ASCII character is copied unless it is a control character, the quote, the
backslash, `<`, `>` or `&`, which are escaped; a byte that is not well-formed UTF-8 becomes the
escape of U+FFFD; U+2028 and U+2029 are escaped; every other code point is copied. -/
def appendUnit : Utf8Unit → List Char
  | .invalid _ => [backslash, 'u', 'f', 'f', 'f', 'd']
  | .rune c =>
    if c.toNat < 0x80 then
      if 0x20 ≤ c.toNat ∧ c.toNat ≠ 0x22 ∧ c.toNat ≠ 0x5C ∧ c.toNat ≠ 0x3C ∧ c.toNat ≠ 0x3E
          ∧ c.toNat ≠ 0x26 then [c]
      else if c.toNat = 0x5C ∨ c.toNat = 0x22 then [backslash, c]
      else if c.toNat = 8 then [backslash, 'b']
      else if c.toNat = 12 then [backslash, 'f']
      else if c.toNat = 10 then [backslash, 'n']
      else if c.toNat = 13 then [backslash, 'r']
      else if c.toNat = 9 then [backslash, 't']
      else [backslash, 'u', '0', '0', hex (c.toNat / 16), hex (c.toNat % 16)]
    else if c.toNat = 0x2028 ∨ c.toNat = 0x2029 then
      [backslash, 'u', '2', '0', '2', hex (c.toNat % 16)]
    else [c]

/-- The escaped text of the units of a string, in order. -/
def appendUnits : GoString → List Char
  | [] => []
  | u :: us => appendUnit u ++ appendUnits us

/-- The string that comes back from the encoder and the decoder: every byte that is not part of
well-formed UTF-8 has become U+FFFD (`utf8.RuneError`). -/
def toValidUTF8 : GoString → GoString
  | [] => []
  | .rune c :: us => .rune c :: toValidUTF8 us
  | .invalid _ :: us => .rune (Char.ofNat 0xFFFD) :: toValidUTF8 us

/-- The character that the decoder reads back for a unit. -/
def unitChar : Utf8Unit → Char
  | .rune c => c
  | .invalid _ => Char.ofNat 0xFFFD

/-- The encoder of a string value: the quoted, escaped text. -/
def appendString (s : GoString) : List Char :=
  quote :: (appendUnits s ++ [quote])

/-- The text of a struct member: the quoted key, a colon and the string value. -/
def appendMember (key : String) (s : GoString) : List Char :=
  quote :: (key.data ++ quote :: colon :: appendString s)

/-- Go `json.Marshal(info)` for `info` of type `*TokenInfo`: `null` for a `nil` pointer, and
otherwise the object of the three members, in the order of the fields.  It never fails. -/
def Marshal : Option SpecTokenInfo → Except JSONError String
  | none => .ok "null"
  | some t =>
    .ok (String.mk (lbrace :: (appendMember "access_token" t.AccessToken
      ++ comma :: (appendMember "refresh_token" t.RefreshToken
      ++ comma :: (appendMember "expiry" t.Expiry ++ [rbrace])))))

/-! ### Decoder -/

/-- The space characters of JSON text: space, tab, carriage return and line feed. -/
def isSpace (c : Char) : Bool :=
  decide (c.toNat = 0x20 ∨ c.toNat = 9 ∨ c.toNat = 13 ∨ c.toNat = 10)

/-- The text after its leading space characters. -/
def skipSpace : List Char → List Char
  | [] => []
  | c :: cs => if isSpace c then skipSpace cs else c :: cs

/-- A decimal digit. -/
def isDigit (c : Char) : Bool := decide (48 ≤ c.toNat ∧ c.toNat ≤ 57)

/-- The text after its leading digits. -/
def skipDigits : List Char → List Char
  | [] => []
  | c :: cs => if isDigit c then skipDigits cs else c :: cs

/-- The value of a hexadecimal digit, in either case. -/
def hexVal (c : Char) : Option Nat :=
  if 48 ≤ c.toNat ∧ c.toNat ≤ 57 then some (c.toNat - 48)
  else if 97 ≤ c.toNat ∧ c.toNat ≤ 102 then some (c.toNat - 87)
  else if 65 ≤ c.toNat ∧ c.toNat ≤ 70 then some (c.toNat - 55)
  else none

/-- The number written by the four hexadecimal digits of an escape `\uXXXX` (`getu4`). -/
def getu4 (a b c d : Char) : Option Nat :=
  match hexVal a, hexVal b, hexVal c, hexVal d with
  | some x, some y, some z, some w => some (((x * 16 + y) * 16 + z) * 16 + w)
  | _, _, _, _ => none

/-- The replacement character U+FFFD (`unicode.ReplacementChar`, `utf8.RuneError`). -/
def replacementChar : Char := Char.ofNat 0xFFFD

/-- The code point of a surrogate pair: `rr` is a high surrogate and the six characters that
follow are an escape `\uXXXX` of a low surrogate (`utf16.DecodeRune`). -/
def lowSurrogate (rr : Nat) (b u y1 y2 y3 y4 : Char) : Option Char :=
  if b = backslash ∧ u = 'u' then
    match getu4 y1 y2 y3 y4 with
    | some rr1 =>
      if 0xD800 ≤ rr ∧ rr < 0xDC00 ∧ 0xDC00 ≤ rr1 ∧ rr1 < 0xE000 then
        some (Char.ofNat ((rr - 0xD800) * 0x400 + (rr1 - 0xDC00) + 0x10000))
      else none
    | none => none
  else none

/-- The character of a one-letter escape. -/
def simpleEscape (e : Char) : Option Char :=
  if e = quote then some quote
  else if e = backslash then some backslash
  else if e = '/' then some '/'
  else if e = 'b' then some (Char.ofNat 8)
  else if e = 'f' then some (Char.ofNat 12)
  else if e = 'n' then some (Char.ofNat 10)
  else if e = 'r' then some (Char.ofNat 13)
  else if e = 't' then some (Char.ofNat 9)
  else none

/-- The outcome of scanning a piece of JSON text: a result and the text after it, a syntax
error, or exhaustion of the recursion budget. -/
inductive Scan (α : Type) where
  | ok (a : α) (rest : List Char)
  | invalid
  | starved
deriving DecidableEq, Repr

/-- One step inside a string literal, at a character that is not the closing quote: the
character decoded there (escapes resolved, a lone surrogate replaced by U+FFFD) and the text
after it; `none` is a syntax error. -/
def stringStep (c : Char) (cs : List Char) : Option (Char × List Char) :=
  if c = backslash then
    match cs with
    | [] => none
    | e :: cs1 =>
      if e = 'u' then
        match cs1 with
        | x1 :: x2 :: x3 :: x4 :: cs2 =>
          match getu4 x1 x2 x3 x4 with
          | none => none
          | some rr =>
            if 0xD800 ≤ rr ∧ rr < 0xE000 then
              match cs2 with
              | b :: u :: y1 :: y2 :: y3 :: y4 :: cs3 =>
                match lowSurrogate rr b u y1 y2 y3 y4 with
                | some ch => some (ch, cs3)
                | none => some (replacementChar, cs2)
              | _ => some (replacementChar, cs2)
            else some (Char.ofNat rr, cs2)
        | _ => none
      else
        match simpleEscape e with
        | some ch => some (ch, cs1)
        | none => none
  else if c.toNat < 0x20 then none
  else some (c, cs)

/-- The body of a string literal, after its opening quote: the decoded string and the text
after the closing quote. -/
def scanString : Nat → List Char → Scan (List Char)
  | 0, _ => .starved
  | _ + 1, [] => .invalid
  | fuel + 1, c :: cs =>
    if c = quote then .ok [] cs
    else
      match stringStep c cs with
      | none => .invalid
      | some (ch, rest) =>
        match scanString fuel rest with
        | .ok s rest' => .ok (ch :: s) rest'
        | .invalid => .invalid
        | .starved => .starved

/-- The exponent of a number, if any, and the text after the number. -/
def scanExponent : List Char → Option (List Char)
  | [] => some []
  | c :: cs =>
    if c = 'e' ∨ c = 'E' then
      match cs with
      | [] => none
      | s :: cs1 =>
        if s = '+' ∨ s = '-' then
          match cs1 with
          | [] => none
          | d :: cs2 => if isDigit d then some (skipDigits cs2) else none
        else if isDigit s then some (skipDigits cs1)
        else none
    else some (c :: cs)

/-- The fraction and exponent of a number, if any, and the text after the number. -/
def scanFraction : List Char → Option (List Char)
  | [] => some []
  | c :: cs =>
    if c = '.' then
      match cs with
      | [] => none
      | d :: cs1 => if isDigit d then scanExponent (skipDigits cs1) else none
    else scanExponent (c :: cs)

/-- The digits of a number after its optional sign, and the text after the number. -/
def scanDigits : List Char → Option (List Char)
  | [] => none
  | c :: cs =>
    if c = '0' then scanFraction cs
    else if isDigit c then scanFraction (skipDigits cs)
    else none

/-- A number literal, and the text after it. -/
def scanNumber : List Char → Option (List Char)
  | [] => none
  | c :: cs => if c = '-' then scanDigits cs else scanDigits (c :: cs)

/-- The text after the expected characters. -/
def scanLiteral : List Char → List Char → Option (List Char)
  | [], cs => some cs
  | _ :: _, [] => none
  | l :: ls, c :: cs => if l = c then scanLiteral ls cs else none

/-- The kind of a JSON value, with the decoded text of a string. -/
inductive JKind where
  | null
  | bool
  | number
  | string (s : List Char)
  | array
  | object
deriving DecidableEq, Repr

/-- A JSON value as far as decoding into a struct of strings needs it: its kind, and for an
object the keys of its members with the kinds of their values, in order. -/
inductive JValue where
  | null
  | bool
  | number
  | string (s : List Char)
  | array
  | object (members : List (List Char × JKind))
deriving DecidableEq, Repr

/-- The kind of a value. -/
def JValue.kind : JValue → JKind
  | .null => .null
  | .bool => .bool
  | .number => .number
  | .string s => .string s
  | .array => .array
  | .object _ => .object

/-- The nesting depth beyond which the scanner gives up (`maxNestingDepth`). -/
def maxNestingDepth : Nat := 10000

mutual

/-- A JSON value at the head of the text (no leading space); `depth` counts the objects and
arrays that are open. -/
def scanValue : Nat → Nat → List Char → Scan JValue
  | 0, _, _ => .starved
  | _ + 1, _, [] => .invalid
  | fuel + 1, depth, c :: cs =>
    if c = lbrace then
      if depth + 1 > maxNestingDepth then .invalid
      else
        match skipSpace cs with
        | [] => .invalid
        | d :: ds =>
          if d = rbrace then .ok (.object []) ds
          else scanMembers fuel (depth + 1) (d :: ds) []
    else if c = lbracket then
      if depth + 1 > maxNestingDepth then .invalid
      else
        match skipSpace cs with
        | [] => .invalid
        | d :: ds =>
          if d = rbracket then .ok .array ds
          else scanElements fuel (depth + 1) (d :: ds)
    else if c = quote then
      match scanString (cs.length + 1) cs with
      | .ok s rest => .ok (.string s) rest
      | .invalid => .invalid
      | .starved => .starved
    else if c = '-' ∨ isDigit c then
      match scanNumber (c :: cs) with
      | some rest => .ok .number rest
      | none => .invalid
    else if c = 't' then
      match scanLiteral ['r', 'u', 'e'] cs with
      | some rest => .ok .bool rest
      | none => .invalid
    else if c = 'f' then
      match scanLiteral ['a', 'l', 's', 'e'] cs with
      | some rest => .ok .bool rest
      | none => .invalid
    else if c = 'n' then
      match scanLiteral ['u', 'l', 'l'] cs with
      | some rest => .ok .null rest
      | none => .invalid
    else .invalid

/-- The members of an object from the key of a member on (no leading space), up to and
including the closing brace; `acc` holds the members already read. -/
def scanMembers : Nat → Nat → List Char → List (List Char × JKind) → Scan JValue
  | 0, _, _, _ => .starved
  | _ + 1, _, [], _ => .invalid
  | fuel + 1, depth, c :: cs, acc =>
    if c = quote then
      match scanString (cs.length + 1) cs with
      | .invalid => .invalid
      | .starved => .starved
      | .ok key rest =>
        match skipSpace rest with
        | [] => .invalid
        | d :: ds =>
          if d = colon then
            match scanValue fuel depth (skipSpace ds) with
            | .invalid => .invalid
            | .starved => .starved
            | .ok v rest1 =>
              match skipSpace rest1 with
              | [] => .invalid
              | e :: es =>
                if e = comma then scanMembers fuel depth (skipSpace es) (acc ++ [(key, v.kind)])
                else if e = rbrace then .ok (.object (acc ++ [(key, v.kind)])) es
                else .invalid
          else .invalid
    else .invalid

/-- The elements of an array from an element on (no leading space), up to and including the
closing bracket. -/
def scanElements : Nat → Nat → List Char → Scan JValue
  | 0, _, _ => .starved
  | fuel + 1, depth, cs =>
    match scanValue fuel depth cs with
    | .invalid => .invalid
    | .starved => .starved
    | .ok _ rest =>
      match skipSpace rest with
      | [] => .invalid
      | e :: es =>
        if e = comma then scanElements fuel depth (skipSpace es)
        else if e = rbracket then .ok .array es
        else .invalid

end

/-- The fields of the struct. -/
inductive Field where
  | AccessToken
  | RefreshToken
  | Expiry
deriving DecidableEq, Repr

/-- The folding of one rune of a key (`foldName`), as far as it matters for a comparison with
the folded ASCII name of a field: ASCII letters go to upper case, and the two non-ASCII runes
that fold to an ASCII letter, U+017F and U+212A, go to `S` and `K`. -/
def foldRune (c : Char) : Char :=
  if 97 ≤ c.toNat ∧ c.toNat ≤ 122 then Char.ofNat (c.toNat - 32)
  else if c.toNat = 0x17F then 'S'
  else if c.toNat = 0x212A then 'K'
  else c

/-- The field that a key of an object selects: the field whose name equals the key, up to
case folding. -/
def field (key : List Char) : Option Field :=
  if key.map foldRune = "ACCESS_TOKEN".data then some .AccessToken
  else if key.map foldRune = "REFRESH_TOKEN".data then some .RefreshToken
  else if key.map foldRune = "EXPIRY".data then some .Expiry
  else none

/-- The assignment of a decoded string to a field. -/
def setString (t : SpecTokenInfo) (f : Field) (s : List Char) : SpecTokenInfo :=
  match f with
  | .AccessToken => { t with AccessToken := s.map Utf8Unit.rune }
  | .RefreshToken => { t with RefreshToken := s.map Utf8Unit.rune }
  | .Expiry => { t with Expiry := s.map Utf8Unit.rune }

/-- The syntax error of the decoder (`*json.SyntaxError`). -/
def syntaxError : JSONError := { msg := "json: invalid JSON text" }

/-- The type error of the decoder (`*json.UnmarshalTypeError`). -/
def typeError : JSONError := { msg := "json: cannot unmarshal value into Go value" }

/-- The decoding of the members of an object into the struct, in order.  A string is stored in
the field its key selects, `null` and members with an unknown key are skipped, and any other
value for a known key records a type error. -/
def decodeMembers : List (List Char × JKind) → SpecTokenInfo × Option JSONError →
    SpecTokenInfo × Option JSONError
  | [], st => st
  | (key, k) :: ms, (t, saved) =>
    match field key with
    | none => decodeMembers ms (t, saved)
    | some f =>
      match k with
      | .string s => decodeMembers ms (setString t f s, saved)
      | .null => decodeMembers ms (t, saved)
      | _ => decodeMembers ms (t, saved.orElse (fun _ => some typeError))

/-- The whole text as one JSON value with optional space around it (`checkValid`).  The budget
of twice the length of the text is never used up, see `scanDocument_not_starved`. -/
def scanDocument (cs : List Char) : Scan JValue :=
  match scanValue (2 * cs.length + 1) 0 (skipSpace cs) with
  | .ok v rest => if skipSpace rest = [] then .ok v [] else .invalid
  | .invalid => .invalid
  | .starved => .starved

/-- Go `json.Unmarshal(data, &info)` for a zero `info` of type `TokenInfo`: a syntax error
for text that is not one JSON value, a type error for a value that is neither an object nor
`null` and for an object that gives a field a value other than a string or `null`, and
otherwise the struct with the strings of the object stored in their fields. -/
def Unmarshal (data : String) : Except JSONError SpecTokenInfo :=
  match scanDocument data.data with
  | .ok (.object members) _ =>
    match decodeMembers members ({ AccessToken := [], RefreshToken := [], Expiry := [] }, none) with
    | (t, none) => .ok t
    | (_, some e) => .error e
  | .ok .null _ => .ok { AccessToken := [], RefreshToken := [], Expiry := [] }
  | .ok _ _ => .error typeError
  | _ => .error syntaxError

/-- The codec `json.Marshal` / `json.Unmarshal` at the struct `TokenInfo`. -/
def codec : JSON SpecTokenInfo where
  Marshal := Marshal
  Unmarshal := Unmarshal

end EncodingJSON

end Auth

/-! # Text helpers of agent-linear-cli (internal/display/display.go)

Go values are embedded as follows.

* `string` is `String`, a sequence of Unicode code points: the strings are valid UTF-8, so
  `[]rune(s)` is `s.data`, `string(runes)` is `String.mk runes` and `string(r)` for a rune `r` is
  `String.singleton r`.
* `int` is `Int`.  The only arithmetic is `maxLen-3`, `(maxLen-3)/2`, `width-runeCount`,
  `len(runes)-half` and `len(parts)-1`, each on operands for which the machine result is the
  mathematical one.
* A function returns `Option String`; `none` is a run-time panic (slice bounds out of range,
  index out of range, negative repeat count).
-/

namespace Display

/-- Go `utf8.RuneCountInString(s)`. -/
def RuneCountInString (s : String) : Int := (s.data.length : Int)

/-- The slice expression `xs[lo:hi]`; it panics unless `0 <= lo <= hi <= len(xs)`. -/
def slice {α : Type} (xs : List α) (lo hi : Int) : Option (List α) :=
  if 0 ≤ lo ∧ lo ≤ hi ∧ hi ≤ (xs.length : Int) then
    some ((xs.drop lo.toNat).take (hi.toNat - lo.toNat))
  else none

/-- The index expression `xs[i]`; it panics unless `0 <= i < len(xs)`. -/
def index {α : Type} (xs : List α) (i : Int) : Option α :=
  if 0 ≤ i ∧ i < (xs.length : Int) then xs[i.toNat]? else none

/-- The string made of `n` copies of `s`. -/
def copies (s : String) : Nat → String
  | 0 => ""
  | n + 1 => copies s n ++ s

/-- Go `strings.Repeat(s, count)`; it panics when `count` is negative. -/
def Repeat (s : String) (count : Int) : Option String :=
  if count < 0 then none else some (copies s count.toNat)

/-- Go `unicode.IsSpace(r)`: the code points with the Unicode property White_Space. -/
def IsSpace (r : Char) : Bool :=
  decide ((9 ≤ r.toNat ∧ r.toNat ≤ 13) ∨ r.toNat = 0x20 ∨ r.toNat = 0x85 ∨ r.toNat = 0xA0
    ∨ r.toNat = 0x1680 ∨ (0x2000 ≤ r.toNat ∧ r.toNat ≤ 0x200A) ∨ r.toNat = 0x2028
    ∨ r.toNat = 0x2029 ∨ r.toNat = 0x202F ∨ r.toNat = 0x205F ∨ r.toNat = 0x3000)

/-- The fields of the remaining input `cs`, where `cur` holds the runes of the field being
read. -/
def fieldsFrom : List Char → List Char → List (List Char)
  | cur, [] => if cur = [] then [] else [cur]
  | cur, c :: cs =>
    if IsSpace c then
      if cur = [] then fieldsFrom [] cs else cur :: fieldsFrom [] cs
    else fieldsFrom (cur ++ [c]) cs

/-- Go `strings.Fields(s)`: the maximal runs of non-space runes of `s`, in order. -/
def Fields (s : String) : List String :=
  (fieldsFrom [] s.data).map String.mk

/-- Go `strings.ToUpper(s)`: `unicode.ToUpper` applied to every rune.  The case table
`unicode.ToUpper` is a parameter. -/
def ToUpper (upper : Char → Char) (s : String) : String :=
  String.mk (s.data.map upper)

/-- Go `strings.Join(elems, sep)`. -/
def Join (elems : List String) (sep : String) : String :=
  match elems with
  | [] => ""
  | e :: es => es.foldl (fun b s => b ++ sep ++ s) e

/-- `Truncate` truncates a string to maxLen, adding "..." if truncated. -/
def Truncate (s : String) (maxLen : Int) : Option String :=
  if maxLen ≤ 3 then some s
  else if RuneCountInString s ≤ maxLen then some s
  else do
    let runes := s.data
    let head ← slice runes 0 (maxLen - 3)
    pure (String.mk head ++ "...")

/-- `TruncateMiddle` truncates a string in the middle, preserving start and end. -/
def TruncateMiddle (s : String) (maxLen : Int) : Option String :=
  if maxLen ≤ 5 then Truncate s maxLen
  else
    let runes := s.data
    if (runes.length : Int) ≤ maxLen then some s
    else do
      let half := (maxLen - 3).tdiv 2
      let head ← slice runes 0 half
      let tail ← slice runes ((runes.length : Int) - half) (runes.length : Int)
      pure (String.mk head ++ "..." ++ String.mk tail)

/-- `Pad` pads a string to the specified width. -/
def Pad (s : String) (width : Int) : Option String :=
  let runeCount := RuneCountInString s
  if runeCount ≥ width then some s
  else do
    let fill ← Repeat " " (width - runeCount)
    pure (s ++ fill)

/-- `PadLeft` pads a string on the left to the specified width. -/
def PadLeft (s : String) (width : Int) : Option String :=
  let runeCount := RuneCountInString s
  if runeCount ≥ width then some s
  else do
    let fill ← Repeat " " (width - runeCount)
    pure (fill ++ s)

/-- `Initials` returns the initials from a name (max 2 chars). -/
def Initials (upper : Char → Char) (name : String) : Option String :=
  if name = "" then some "--"
  else
    let parts := Fields name
    if parts.length = 0 then some "--"
    else if parts.length = 1 then do
      let p0 ← index parts 0
      let runes := p0.data
      if runes.length ≥ 2 then do
        let two ← slice runes 0 2
        pure (ToUpper upper (String.mk two))
      else pure (ToUpper upper p0)
    else do
      let p0 ← index parts 0
      let pn ← index parts ((parts.length : Int) - 1)
      let first := p0.data
      let last := pn.data
      let f0 ← index first 0
      let l0 ← index last 0
      pure (ToUpper upper (String.singleton f0 ++ String.singleton l0))

/-- `JoinNonEmpty` joins non-empty strings with a separator. -/
def JoinNonEmpty (sep : String) (parts : List String) : String :=
  let nonEmpty := parts.foldl (fun acc p => if p ≠ "" then acc ++ [p] else acc) []
  Join nonEmpty sep

/-- The concatenation of the strings of a list, in order, with `sep` between consecutive
ones. -/
def concatWith (sep : String) : List String → String
  | [] => ""
  | [p] => p
  | p :: q :: ps => p ++ sep ++ concatWith sep (q :: ps)

end Display

namespace Auth

/-! ## Lemmas on maps and key names -/

@[simp] theorem GoMap.make_apply (j : String) : GoMap.make j = none := rfl

@[simp] theorem GoMap.insert_same (m : GoMap) (k v : String) : (m.insert k v) k = some v := by
  simp [GoMap.insert]

theorem GoMap.insert_other (m : GoMap) {j k : String} (v : String) (h : j ≠ k) :
    (m.insert k v) j = m j := by
  simp [GoMap.insert, h]

@[simp] theorem GoMap.delete_same (m : GoMap) (k : String) : (m.delete k) k = none := by
  simp [GoMap.delete]

theorem GoMap.delete_other (m : GoMap) {j k : String} (h : j ≠ k) : (m.delete k) j = m j := by
  simp [GoMap.delete, h]

theorem GoMap.delete_absent (m : GoMap) {k : String} (h : m k = none) : m.delete k = m := by
  funext j
  by_cases hj : j = k
  · subst hj
    simp [h]
  · exact GoMap.delete_other m hj

theorem MemoryStorage.ext_data {s t : MemoryStorage} (h : s.data = t.data) : s = t := by
  cases s
  cases t
  simp_all

/-- The four key names are pairwise distinct. -/
theorem Kind.key_injective : Function.Injective Kind.key := by
  intro a b h
  cases a <;> cases b <;> first | rfl | exact absurd h (by decide)

theorem Kind.key_ne {j k : Kind} (h : j ≠ k) : j.key ≠ k.key :=
  fun e => h (Kind.key_injective e)

/-- The entry of kind `k` decides the get of kind `k`: an absent entry gives the not-found
result. -/
theorem MemoryStorage.Get_of_absent {TokenInfo : Type} (J : JSON TokenInfo) (s : MemoryStorage)
    (k : Kind) (h : s.data k.key = none) : s.Get J k = Result.notFound k := by
  cases k <;>
    simp_all [MemoryStorage.Get, MemoryStorage.step, Op.get, Result.notFound, Kind.key,
      MemoryStorage.GetAPIKey, MemoryStorage.GetTokenInfo, MemoryStorage.GetClientID,
      MemoryStorage.GetClientSecret]

/-- A call that is not the set of kind `k` leaves an absent entry of kind `k` absent. -/
theorem MemoryStorage.step_absent {TokenInfo : Type} (J : JSON TokenInfo) (s : MemoryStorage)
    (k : Kind) (op : Op TokenInfo) (hop : op.isSet k = false) (h : s.data k.key = none) :
    (s.step J op).2.data k.key = none := by
  cases op <;> cases k <;>
    simp_all [MemoryStorage.step, Op.isSet, Kind.key, MemoryStorage.SetAPIKey,
      MemoryStorage.DeleteAPIKey, MemoryStorage.SetTokenInfo, MemoryStorage.DeleteTokenInfo,
      MemoryStorage.SetClientID, MemoryStorage.DeleteClientID, MemoryStorage.SetClientSecret,
      MemoryStorage.DeleteClientSecret, GoMap.insert, GoMap.delete, keyAPIKey, keyTokenInfo,
      keyClientID, keyClientSecret] <;>
    (split <;> simp_all [GoMap.insert, keyTokenInfo])

theorem MemoryStorage.run_absent {TokenInfo : Type} (J : JSON TokenInfo) (k : Kind)
    (ops : List (Op TokenInfo)) :
    ∀ s : MemoryStorage, (∀ op ∈ ops, op.isSet k = false) → s.data k.key = none →
      (s.run J ops).data k.key = none := by
  induction ops with
  | nil => intro s _ h; exact h
  | cons op ops ih =>
    intro s hops h
    exact ih _ (fun o ho => hops o (List.mem_cons_of_mem _ ho))
      (MemoryStorage.step_absent J s k op (hops op (List.mem_cons_self _ _)) h)

/-! ## Properties of the in-memory backend -/

/-- C1. In-memory backend, string kinds (API key, client id, client secret): in every storage
state reached from `NewMemoryStorage` by a sequence of calls, a set returns no error and the
get that follows returns exactly the value set, with no error; after two sets the get returns
the second value. -/
theorem memory_string_set_get {TokenInfo : Type} (J : JSON TokenInfo) (ops : List (Op TokenInfo))
    (v v1 v2 : String) :
    ((NewMemoryStorage.run J ops).SetAPIKey v).1 = none
    ∧ ((NewMemoryStorage.run J ops).SetAPIKey v).2.GetAPIKey = (v, none)
    ∧ (((NewMemoryStorage.run J ops).SetAPIKey v1).2.SetAPIKey v2).1 = none
    ∧ (((NewMemoryStorage.run J ops).SetAPIKey v1).2.SetAPIKey v2).2.GetAPIKey = (v2, none)
    ∧ ((NewMemoryStorage.run J ops).SetClientID v).1 = none
    ∧ ((NewMemoryStorage.run J ops).SetClientID v).2.GetClientID = (v, none)
    ∧ (((NewMemoryStorage.run J ops).SetClientID v1).2.SetClientID v2).1 = none
    ∧ (((NewMemoryStorage.run J ops).SetClientID v1).2.SetClientID v2).2.GetClientID = (v2, none)
    ∧ ((NewMemoryStorage.run J ops).SetClientSecret v).1 = none
    ∧ ((NewMemoryStorage.run J ops).SetClientSecret v).2.GetClientSecret = (v, none)
    ∧ (((NewMemoryStorage.run J ops).SetClientSecret v1).2.SetClientSecret v2).1 = none
    ∧ (((NewMemoryStorage.run J ops).SetClientSecret v1).2.SetClientSecret v2).2.GetClientSecret
        = (v2, none) := by
  simp [MemoryStorage.SetAPIKey, MemoryStorage.GetAPIKey, MemoryStorage.SetClientID,
    MemoryStorage.GetClientID, MemoryStorage.SetClientSecret, MemoryStorage.GetClientSecret]

/-- C2. In-memory backend: after any sequence of calls on a fresh `NewMemoryStorage` that
contains no set of kind `k`, the get of kind `k` fails with `keyring.ErrNotFound` and returns
the empty string (a `nil` envelope for `token_info`); in particular every get on a fresh store
does. -/
theorem memory_get_unset_not_found {TokenInfo : Type} (J : JSON TokenInfo) (k : Kind)
    (ops : List (Op TokenInfo)) (h : ∀ op ∈ ops, op.isSet k = false) :
    (NewMemoryStorage.run J ops).Get J k = Result.notFound k
    ∧ NewMemoryStorage.Get J k = Result.notFound k := by
  constructor
  · exact MemoryStorage.Get_of_absent J _ k (MemoryStorage.run_absent J k ops _ h rfl)
  · exact MemoryStorage.Get_of_absent J _ k rfl

/-- Witness of C2: a set of the API key, a set and a delete of the token and a get of the
client secret leave the client id unset. -/
theorem memory_get_unset_not_found_witness :
    (NewMemoryStorage.run SampleTokenInfo.codec
        [Op.SetAPIKey "lin_api_abc123", Op.SetTokenInfo (some ⟨"tok1", "", ""⟩),
          Op.DeleteTokenInfo, Op.GetClientSecret]).Get SampleTokenInfo.codec Kind.client_id
      = Result.str "" (some GoError.ErrNotFound) :=
  (memory_get_unset_not_found SampleTokenInfo.codec Kind.client_id
    [Op.SetAPIKey "lin_api_abc123", Op.SetTokenInfo (some ⟨"tok1", "", ""⟩),
      Op.DeleteTokenInfo, Op.GetClientSecret] (by decide)).1

/-- The delete of kind `k` of the OS backend is the platform delete at `(service, key)` with
an error matching `keyring.ErrNotFound` replaced by `nil`. -/
theorem KeyringStorage.Delete_eq {σ : Type} (P : Keyring σ) (s : KeyringStorage) (w : σ)
    (k : Kind) :
    s.Delete P w k =
      (if errorsIs (P.Delete w s.service k.key).1 GoError.ErrNotFound then none
        else (P.Delete w s.service k.key).1, (P.Delete w s.service k.key).2) := by
  cases k <;>
    simp only [KeyringStorage.Delete, KeyringStorage.DeleteAPIKey,
      KeyringStorage.DeleteTokenInfo, KeyringStorage.DeleteClientID,
      KeyringStorage.DeleteClientSecret, Kind.key] <;>
    split <;> simp_all

/-- C3. OS backend, delete of each of the four kinds: when the platform delete at
`(service, key)` reports an error matching `keyring.ErrNotFound` the backend returns `nil`; when
the platform delete succeeds the backend returns `nil`; every other platform error is returned
unchanged; in all three cases the platform state is the one the platform delete left.  So the
error returned by a delete never matches `keyring.ErrNotFound`, for the OS backend and for the
in-memory backend. -/
theorem keyring_delete_normalizes {σ : Type} (P : Keyring σ) (s : KeyringStorage) (w : σ)
    (m : MemoryStorage) (k : Kind) :
    (errorsIs (P.Delete w s.service k.key).1 GoError.ErrNotFound = true →
        s.Delete P w k = (none, (P.Delete w s.service k.key).2))
    ∧ ((P.Delete w s.service k.key).1 = none →
        s.Delete P w k = (none, (P.Delete w s.service k.key).2))
    ∧ (errorsIs (P.Delete w s.service k.key).1 GoError.ErrNotFound = false →
        s.Delete P w k = P.Delete w s.service k.key)
    ∧ errorsIs (s.Delete P w k).1 GoError.ErrNotFound = false
    ∧ errorsIs (m.Delete k).1 GoError.ErrNotFound = false := by
  rw [KeyringStorage.Delete_eq]
  refine ⟨?_, ?_, ?_, ?_, ?_⟩
  · intro h
    simp [h]
  · intro h
    simp [h, errorsIs]
  · intro h
    simp [h]
  · by_cases h : errorsIs (P.Delete w s.service k.key).1 GoError.ErrNotFound = true
    · rw [if_pos h]
      rfl
    · rw [if_neg h]
      simpa using h
  · cases k <;> rfl

/-- Witness of C3: on the empty ideal service the platform reports `keyring.ErrNotFound` and the
backend returns `nil`; with an entry present the platform succeeds and the backend returns
`nil`; a permission error is returned unchanged; a wrapped `keyring.ErrNotFound` is turned
into `nil`. -/
theorem keyring_delete_normalizes_witness :
    ((NewKeyringStorage "svc").Delete idealKeyring IdealState.empty Kind.api_key).1 = none
    ∧ ((NewKeyringStorage "svc").Delete idealKeyring
        (idealKeyring.Set IdealState.empty "svc" "token_info" "x").2 Kind.token_info).1 = none
    ∧ (NewKeyringStorage "svc").Delete (failingKeyring (GoError.other "permission denied")) ()
        Kind.client_id = (some (GoError.other "permission denied"), ())
    ∧ (NewKeyringStorage "svc").Delete
        (failingKeyring (GoError.wrap "keyring" GoError.ErrNotFound)) () Kind.client_secret
        = (none, ()) :=
  ⟨congrArg Prod.fst ((keyring_delete_normalizes idealKeyring (NewKeyringStorage "svc")
      IdealState.empty NewMemoryStorage Kind.api_key).1 (by decide)),
    congrArg Prod.fst ((keyring_delete_normalizes idealKeyring (NewKeyringStorage "svc")
      (idealKeyring.Set IdealState.empty "svc" "token_info" "x").2 NewMemoryStorage
      Kind.token_info).2.1 (by decide)),
    (keyring_delete_normalizes (failingKeyring (GoError.other "permission denied"))
      (NewKeyringStorage "svc") () NewMemoryStorage Kind.client_id).2.2.1 (by decide),
    (keyring_delete_normalizes (failingKeyring (GoError.wrap "keyring" GoError.ErrNotFound))
      (NewKeyringStorage "svc") () NewMemoryStorage Kind.client_secret).1 (by decide)⟩

/-- C4. In-memory backend: the delete of every kind returns no error in every storage state,
and when no entry of that kind exists the storage after the delete is the storage before. -/
theorem memory_delete_succeeds (s : MemoryStorage) (k : Kind) :
    (s.Delete k).1 = none ∧ (s.data k.key = none → (s.Delete k).2 = s) := by
  constructor
  · cases k <;> rfl
  · intro h
    apply MemoryStorage.ext_data
    cases k <;> exact GoMap.delete_absent s.data h

/-- Witness of C4: deleting the client secret of a store that holds only an API key changes
nothing. -/
theorem memory_delete_succeeds_witness :
    ((NewMemoryStorage.SetAPIKey "lin_api_abc123").2.Delete Kind.client_secret).2
      = (NewMemoryStorage.SetAPIKey "lin_api_abc123").2 :=
  (memory_delete_succeeds (NewMemoryStorage.SetAPIKey "lin_api_abc123").2
    Kind.client_secret).2 (by decide)

/-- C5. In-memory backend: in every storage state and for every kind, after a delete the get
of that kind fails with `keyring.ErrNotFound` and a second delete returns no error.  Scenario:
set the API key to `lin_api_abc123`, get returns it, delete succeeds, get fails with
`keyring.ErrNotFound`, delete succeeds again. -/
theorem memory_delete_removes {TokenInfo : Type} (J : JSON TokenInfo) (s : MemoryStorage)
    (k : Kind) :
    ((s.Delete k).2.Get J k = Result.notFound k
      ∧ ((s.Delete k).2.Delete k).1 = none)
    ∧ ((s.SetAPIKey "lin_api_abc123").2.GetAPIKey = ("lin_api_abc123", none)
      ∧ ((s.SetAPIKey "lin_api_abc123").2.DeleteAPIKey).1 = none
      ∧ ((s.SetAPIKey "lin_api_abc123").2.DeleteAPIKey).2.GetAPIKey
          = ("", some GoError.ErrNotFound)
      ∧ (((s.SetAPIKey "lin_api_abc123").2.DeleteAPIKey).2.DeleteAPIKey).1 = none) := by
  refine ⟨⟨?_, ?_⟩, ?_⟩
  · apply MemoryStorage.Get_of_absent
    cases k <;>
      simp [MemoryStorage.Delete, MemoryStorage.DeleteAPIKey, MemoryStorage.DeleteTokenInfo,
        MemoryStorage.DeleteClientID, MemoryStorage.DeleteClientSecret, Kind.key]
  · cases k <;> rfl
  · simp [MemoryStorage.SetAPIKey, MemoryStorage.GetAPIKey, MemoryStorage.DeleteAPIKey]

/-! ## The codec of `encoding/json`: decoding what was encoded -/

namespace EncodingJSON

theorem toValidUTF8_eq (s : GoString) : toValidUTF8 s = (s.map unitChar).map Utf8Unit.rune := by
  induction s with
  | nil => rfl
  | cons u us ih => cases u <;> simp [toValidUTF8, unitChar, ih]

theorem toValidUTF8_of_valid (s : GoString) (h : s.valid = true) : toValidUTF8 s = s := by
  induction s with
  | nil => rfl
  | cons u us ih =>
    cases u with
    | rune c => simp only [toValidUTF8, ih (by simpa [GoString.valid] using h)]
    | invalid b => simp [GoString.valid] at h

theorem char_eq_of_toNat {c : Char} {n : Nat} (h : c.toNat = n) : c = Char.ofNat n := by
  rw [← h, Char.ofNat_toNat]

theorem getu4_low : ∀ n, n < 128 → getu4 '0' '0' (hex (n / 16)) (hex (n % 16)) = some n := by
  decide

/-- The decoder reads one encoded unit back as its character. -/
theorem stringStep_appendUnit (u : Utf8Unit) (tail : List Char) :
    ∃ c cs, appendUnit u ++ tail = c :: cs ∧ c ≠ quote
      ∧ stringStep c cs = some (unitChar u, tail) := by
  cases u with
  | invalid b => exact ⟨backslash, _, rfl, by decide, rfl⟩
  | rune c =>
    simp only [appendUnit, unitChar]
    by_cases h80 : c.toNat < 0x80
    · rw [if_pos h80]
      by_cases hsafe : 0x20 ≤ c.toNat ∧ c.toNat ≠ 0x22 ∧ c.toNat ≠ 0x5C ∧ c.toNat ≠ 0x3C
          ∧ c.toNat ≠ 0x3E ∧ c.toNat ≠ 0x26
      · rw [if_pos hsafe]
        refine ⟨c, tail, rfl, ?_, ?_⟩
        · intro hc
          rw [hc] at hsafe
          exact hsafe.2.1 rfl
        · have hb : c ≠ backslash := by
            intro hc
            rw [hc] at hsafe
            exact hsafe.2.2.1 rfl
          have h20 : ¬ c.toNat < 0x20 := by omega
          simp [stringStep, hb, h20]
      · rw [if_neg hsafe]
        by_cases hq : c.toNat = 0x5C ∨ c.toNat = 0x22
        · rw [if_pos hq]
          refine ⟨backslash, c :: tail, rfl, by decide, ?_⟩
          rcases hq with hq | hq <;> (rw [char_eq_of_toNat hq]; rfl)
        rw [if_neg hq]
        by_cases h8 : c.toNat = 8
        · rw [if_pos h8, char_eq_of_toNat h8]
          exact ⟨backslash, _, rfl, by decide, rfl⟩
        rw [if_neg h8]
        by_cases h12 : c.toNat = 12
        · rw [if_pos h12, char_eq_of_toNat h12]
          exact ⟨backslash, _, rfl, by decide, rfl⟩
        rw [if_neg h12]
        by_cases h10 : c.toNat = 10
        · rw [if_pos h10, char_eq_of_toNat h10]
          exact ⟨backslash, _, rfl, by decide, rfl⟩
        rw [if_neg h10]
        by_cases h13 : c.toNat = 13
        · rw [if_pos h13, char_eq_of_toNat h13]
          exact ⟨backslash, _, rfl, by decide, rfl⟩
        rw [if_neg h13]
        by_cases h9 : c.toNat = 9
        · rw [if_pos h9, char_eq_of_toNat h9]
          exact ⟨backslash, _, rfl, by decide, rfl⟩
        rw [if_neg h9]
        refine ⟨backslash, _, rfl, by decide, ?_⟩
        have hns : ¬ (0xD800 ≤ c.toNat ∧ c.toNat < 0xE000) := by omega
        have hbs : backslash = backslash := rfl
        have hu : ('u' : Char) = 'u' := rfl
        show stringStep backslash
          ('u' :: '0' :: '0' :: hex (c.toNat / 16) :: hex (c.toNat % 16) :: tail) = _
        simp only [stringStep, hbs, hu, if_true, getu4_low c.toNat h80, hns, if_false,
          Char.ofNat_toNat]
    · rw [if_neg h80]
      by_cases hls : c.toNat = 0x2028 ∨ c.toNat = 0x2029
      · rw [if_pos hls]
        refine ⟨backslash, _, rfl, by decide, ?_⟩
        rcases hls with hls | hls <;> (rw [char_eq_of_toNat hls]; rfl)
      · rw [if_neg hls]
        refine ⟨c, tail, rfl, ?_, ?_⟩
        · intro hc
          rw [hc] at h80
          exact h80 (by decide)
        · have hb : c ≠ backslash := by
            intro hc
            rw [hc] at h80
            exact h80 (by decide)
          have h20 : ¬ c.toNat < 0x20 := by omega
          simp [stringStep, hb, h20]

theorem appendUnits_length (s : GoString) : s.length ≤ (appendUnits s).length := by
  induction s with
  | nil => exact Nat.le_refl _
  | cons u us ih =>
    obtain ⟨c, cs, h, _, _⟩ := stringStep_appendUnit u []
    have hl : 1 ≤ (appendUnit u).length := by
      have := congrArg List.length h
      simp at this
      omega
    simp only [appendUnits, List.length_append, List.length_cons]
    omega

/-- The decoder reads an encoded string body back. -/
theorem scanString_appendUnits (s : GoString) :
    ∀ (fuel : Nat) (tail : List Char), s.length < fuel →
      scanString fuel (appendUnits s ++ quote :: tail) = .ok (s.map unitChar) tail := by
  induction s with
  | nil =>
    intro fuel tail hf
    obtain ⟨n, rfl⟩ : ∃ n, fuel = n + 1 := ⟨fuel - 1, by omega⟩
    simp [appendUnits, scanString]
  | cons u us ih =>
    intro fuel tail hf
    obtain ⟨n, rfl⟩ : ∃ n, fuel = n + 1 := ⟨fuel - 1, by omega⟩
    obtain ⟨c, cs, h, hq, hstep⟩ := stringStep_appendUnit u (appendUnits us ++ quote :: tail)
    have hn : us.length < n := by
      simp only [List.length_cons] at hf
      omega
    rw [appendUnits, List.append_assoc, h]
    simp only [scanString, hq, if_false, hstep, ih n tail hn, List.map_cons]

theorem ofString_map_unitChar (key : String) :
    (GoString.ofString key).map unitChar = key.data := by
  simp only [GoString.ofString, List.map_map]
  exact List.map_id _

/-- The scanner reads one member with a string value and goes on after the character that
follows it. -/
theorem scanMembers_appendMember (fuel depth : Nat) (key : String) (s : GoString) (e : Char)
    (es : List Char) (acc : List (List Char × JKind))
    (hk : appendUnits (GoString.ofString key) = key.data) (he : isSpace e = false) :
    scanMembers (fuel + 2) depth (appendMember key s ++ e :: es) acc
      = if e = comma then
          scanMembers (fuel + 1) depth (skipSpace es)
            (acc ++ [(key.data, JKind.string (s.map unitChar))])
        else if e = rbrace then
          .ok (.object (acc ++ [(key.data, JKind.string (s.map unitChar))])) es
        else .invalid := by
  have htext : appendMember key s ++ e :: es
      = quote :: (appendUnits (GoString.ofString key)
          ++ quote :: (colon :: quote :: (appendUnits s ++ quote :: e :: es))) := by
    simp [appendMember, appendString, hk]
  have hkey := scanString_appendUnits (GoString.ofString key)
    ((appendUnits (GoString.ofString key)
      ++ quote :: (colon :: quote :: (appendUnits s ++ quote :: e :: es))).length + 1)
    (colon :: quote :: (appendUnits s ++ quote :: e :: es))
    (by
      have := appendUnits_length (GoString.ofString key)
      simp only [List.length_append]
      omega)
  have hval := scanString_appendUnits s ((appendUnits s ++ quote :: e :: es).length + 1)
    (e :: es)
    (by
      have := appendUnits_length s
      simp only [List.length_append]
      omega)
  have hq : quote = quote := rfl
  have hc : colon = colon := rfl
  have hs1 : skipSpace (colon :: quote :: (appendUnits s ++ quote :: e :: es))
      = colon :: quote :: (appendUnits s ++ quote :: e :: es) := rfl
  have hs2 : skipSpace (quote :: (appendUnits s ++ quote :: e :: es))
      = quote :: (appendUnits s ++ quote :: e :: es) := rfl
  have hs3 : skipSpace (e :: es) = e :: es := by simp [skipSpace, he]
  have hv : scanValue (fuel + 1) depth (quote :: (appendUnits s ++ quote :: e :: es))
      = .ok (.string (s.map unitChar)) (e :: es) := by
    have h1 : ¬ quote = lbrace := by decide
    have h2 : ¬ quote = lbracket := by decide
    simp only [scanValue, h1, h2, hq, if_true, if_false, hval]
  rw [htext]
  simp only [scanMembers, hq, if_true, hkey, hs1, hc, hs2, hv, hs3, JValue.kind,
    ofString_map_unitChar]

/-- The decoder reads the text of a marshalled envelope back as the envelope with every string
made valid UTF-8. -/
theorem Unmarshal_Marshal (t : SpecTokenInfo) :
    ∃ data, Marshal (some t) = .ok data
      ∧ Unmarshal data = .ok { AccessToken := toValidUTF8 t.AccessToken,
                               RefreshToken := toValidUTF8 t.RefreshToken,
                               Expiry := toValidUTF8 t.Expiry } := by
  refine ⟨_, rfl, ?_⟩
  have hdoc : scanDocument (lbrace :: (appendMember "access_token" t.AccessToken
      ++ comma :: (appendMember "refresh_token" t.RefreshToken
      ++ comma :: (appendMember "expiry" t.Expiry ++ [rbrace]))))
      = .ok (.object [("access_token".data, JKind.string (t.AccessToken.map unitChar)),
          ("refresh_token".data, JKind.string (t.RefreshToken.map unitChar)),
          ("expiry".data, JKind.string (t.Expiry.map unitChar))]) [] := by
    obtain ⟨n, hn⟩ : ∃ n, 2 * (lbrace :: (appendMember "access_token" t.AccessToken
        ++ comma :: (appendMember "refresh_token" t.RefreshToken
        ++ comma :: (appendMember "expiry" t.Expiry ++ [rbrace])))).length + 1 = n + 5 := by
      refine ⟨2 * (lbrace :: (appendMember "access_token" t.AccessToken
        ++ comma :: (appendMember "refresh_token" t.RefreshToken
        ++ comma :: (appendMember "expiry" t.Expiry ++ [rbrace])))).length + 1 - 5, ?_⟩
      simp only [List.length_cons, List.length_append, appendMember]
      omega
    have hm1 : skipSpace (appendMember "access_token" t.AccessToken
        ++ comma :: (appendMember "refresh_token" t.RefreshToken
        ++ comma :: (appendMember "expiry" t.Expiry ++ [rbrace])))
        = quote :: ("access_token".data ++ quote :: colon :: appendString t.AccessToken
          ++ comma :: (appendMember "refresh_token" t.RefreshToken
          ++ comma :: (appendMember "expiry" t.Expiry ++ [rbrace]))) := rfl
    have hm1' : quote :: ("access_token".data ++ quote :: colon :: appendString t.AccessToken
          ++ comma :: (appendMember "refresh_token" t.RefreshToken
          ++ comma :: (appendMember "expiry" t.Expiry ++ [rbrace])))
        = appendMember "access_token" t.AccessToken
        ++ comma :: (appendMember "refresh_token" t.RefreshToken
        ++ comma :: (appendMember "expiry" t.Expiry ++ [rbrace])) := rfl
    have hm2 : skipSpace (appendMember "refresh_token" t.RefreshToken
        ++ comma :: (appendMember "expiry" t.Expiry ++ [rbrace]))
        = appendMember "refresh_token" t.RefreshToken
        ++ comma :: (appendMember "expiry" t.Expiry ++ [rbrace]) := rfl
    have hm3 : skipSpace (appendMember "expiry" t.Expiry ++ [rbrace])
        = appendMember "expiry" t.Expiry ++ [rbrace] := rfl
    have hl : skipSpace (lbrace :: (appendMember "access_token" t.AccessToken
        ++ comma :: (appendMember "refresh_token" t.RefreshToken
        ++ comma :: (appendMember "expiry" t.Expiry ++ [rbrace]))))
        = lbrace :: (appendMember "access_token" t.AccessToken
        ++ comma :: (appendMember "refresh_token" t.RefreshToken
        ++ comma :: (appendMember "expiry" t.Expiry ++ [rbrace]))) := rfl
    have hd : ¬ (0 + 1 > maxNestingDepth) := by decide
    have hqb : ¬ quote = rbrace := by decide
    have hcc : comma = comma := rfl
    have hrc : ¬ rbrace = comma := by decide
    have hrr : rbrace = rbrace := rfl
    have hll : lbrace = lbrace := rfl
    unfold scanDocument
    rw [hn, hl]
    simp only [scanValue, hll, if_true, hd, if_false, hm1, hqb]
    rw [hm1', scanMembers_appendMember (n + 2) (0 + 1) "access_token" t.AccessToken comma _ []
        rfl rfl,
      if_pos hcc, hm2,
      scanMembers_appendMember (n + 1) (0 + 1) "refresh_token" t.RefreshToken comma _ _
        rfl rfl,
      if_pos hcc, hm3,
      scanMembers_appendMember n (0 + 1) "expiry" t.Expiry rbrace [] _ rfl rfl,
      if_neg hrc, if_pos hrr]
    rfl
  show Unmarshal (String.mk _) = _
  unfold Unmarshal
  simp only [hdoc]
  simp only [toValidUTF8_eq]
  rfl

/-! ### The recursion budget of the scanner is enough -/

theorem skipSpace_length (cs : List Char) : (skipSpace cs).length ≤ cs.length := by
  induction cs with
  | nil => exact Nat.le_refl _
  | cons c cs ih =>
    simp only [skipSpace]
    split
    · exact Nat.le_succ_of_le ih
    · exact Nat.le_refl _

theorem skipDigits_length (cs : List Char) : (skipDigits cs).length ≤ cs.length := by
  induction cs with
  | nil => exact Nat.le_refl _
  | cons c cs ih =>
    simp only [skipDigits]
    split
    · exact Nat.le_succ_of_le ih
    · exact Nat.le_refl _

theorem stringStep_length (c : Char) (cs : List Char) (ch : Char) (rest : List Char)
    (h : stringStep c cs = some (ch, rest)) : rest.length ≤ cs.length := by
  unfold stringStep at h
  repeat' split at h
  all_goals cases h
  all_goals (try simp only [List.length_cons])
  all_goals omega

theorem scanString_length (fuel : Nat) :
    ∀ (cs s rest : List Char), scanString fuel cs = .ok s rest → rest.length < cs.length := by
  induction fuel with
  | zero => intro cs s rest h; cases h
  | succ n ih =>
    intro cs s rest h
    cases cs with
    | nil => cases h
    | cons c cs =>
      simp only [scanString] at h
      split at h
      · cases h
        exact Nat.lt_succ_self _
      · cases hst : stringStep c cs with
        | none => simp [hst] at h
        | some r =>
          obtain ⟨ch, rest1⟩ := r
          simp only [hst] at h
          cases hrec : scanString n rest1 with
          | invalid => simp [hrec] at h
          | starved => simp [hrec] at h
          | ok s1 rest2 =>
            simp only [hrec, Scan.ok.injEq] at h
            obtain ⟨-, rfl⟩ := h
            have h1 := ih rest1 s1 rest2 hrec
            have h2 := stringStep_length c cs ch rest1 hst
            simp only [List.length_cons]
            omega

theorem scanString_not_starved (fuel : Nat) :
    ∀ cs : List Char, cs.length < fuel → scanString fuel cs ≠ .starved := by
  induction fuel with
  | zero => intro cs h; omega
  | succ n ih =>
    intro cs hlen
    cases cs with
    | nil => simp [scanString]
    | cons c cs =>
      simp only [scanString]
      split
      · simp
      · cases hst : stringStep c cs with
        | none => simp
        | some r =>
          obtain ⟨ch, rest1⟩ := r
          have h2 := stringStep_length c cs ch rest1 hst
          have h3 := ih rest1 (by simp only [List.length_cons] at hlen; omega)
          cases hrec : scanString n rest1 with
          | invalid => simp [hrec]
          | starved => exact absurd hrec h3
          | ok s1 rest2 => simp [hrec]

theorem scanExponent_length (cs rest : List Char) (h : scanExponent cs = some rest) :
    rest.length ≤ cs.length := by
  unfold scanExponent at h
  repeat' split at h
  all_goals cases h
  all_goals (try simp only [List.length_cons, List.length_nil])
  all_goals first
    | omega
    | exact Nat.le_refl _
    | (rename_i cs2 _; have := skipDigits_length cs2; omega)
    | (rename_i cs1 _ _; have := skipDigits_length cs1; omega)

theorem scanFraction_length (cs rest : List Char) (h : scanFraction cs = some rest) :
    rest.length ≤ cs.length := by
  cases cs with
  | nil =>
    cases h
    exact Nat.le_refl _
  | cons c cs =>
    simp only [scanFraction] at h
    split at h
    · cases cs with
      | nil => cases h
      | cons d cs1 =>
        simp only at h
        split at h
        · have h1 := scanExponent_length _ _ h
          have h2 := skipDigits_length cs1
          simp only [List.length_cons]
          omega
        · cases h
    · exact scanExponent_length _ _ h

theorem scanDigits_length (cs rest : List Char) (h : scanDigits cs = some rest) :
    rest.length < cs.length := by
  cases cs with
  | nil => cases h
  | cons c cs =>
    simp only [scanDigits] at h
    split at h
    · have h1 := scanFraction_length _ _ h
      simp only [List.length_cons]
      omega
    · split at h
      · have h1 := scanFraction_length _ _ h
        have h2 := skipDigits_length cs
        simp only [List.length_cons]
        omega
      · cases h

theorem scanNumber_length (cs rest : List Char) (h : scanNumber cs = some rest) :
    rest.length < cs.length := by
  cases cs with
  | nil => cases h
  | cons c cs =>
    simp only [scanNumber] at h
    split at h
    · have h1 := scanDigits_length _ _ h
      simp only [List.length_cons]
      omega
    · exact scanDigits_length _ _ h

theorem scanLiteral_length (lit : List Char) :
    ∀ cs rest : List Char, scanLiteral lit cs = some rest → rest.length ≤ cs.length := by
  induction lit with
  | nil =>
    intro cs rest h
    cases cs <;> (cases h; exact Nat.le_refl _)
  | cons l ls ih =>
    intro cs rest h
    cases cs with
    | nil => cases h
    | cons c cs =>
      simp only [scanLiteral] at h
      split at h
      · exact Nat.le_succ_of_le (ih _ _ h)
      · cases h

/-- A value, the members of an object and the elements of an array each consume text. -/
theorem scan_length (fuel : Nat) :
    (∀ depth cs v rest, scanValue fuel depth cs = .ok v rest → rest.length < cs.length)
    ∧ (∀ depth cs acc v rest, scanMembers fuel depth cs acc = .ok v rest →
        rest.length < cs.length)
    ∧ (∀ depth cs v rest, scanElements fuel depth cs = .ok v rest →
        rest.length < cs.length) := by
  induction fuel with
  | zero =>
    refine ⟨?_, ?_, ?_⟩
    · intro depth cs v rest h; simp [scanValue] at h
    · intro depth cs acc v rest h; simp [scanMembers] at h
    · intro depth cs v rest h; simp [scanElements] at h
  | succ n ih =>
    obtain ⟨ihV, ihM, ihE⟩ := ih
    refine ⟨?_, ?_, ?_⟩
    · intro depth cs v rest h
      cases cs with
      | nil => simp [scanValue] at h
      | cons c cs =>
        simp only [scanValue] at h
        have hsp := skipSpace_length cs
        split at h
        · -- object
          split at h
          · cases h
          · cases hs : skipSpace cs with
            | nil => simp [hs] at h
            | cons d ds =>
              rw [hs] at hsp
              simp only [hs] at h
              split at h
              · cases h
                simp only [List.length_cons] at hsp ⊢
                omega
              · have := ihM _ _ _ _ _ h
                simp only [List.length_cons] at hsp this ⊢
                omega
        · split at h
          · -- array
            split at h
            · cases h
            · cases hs : skipSpace cs with
              | nil => simp [hs] at h
              | cons d ds =>
                rw [hs] at hsp
                simp only [hs] at h
                split at h
                · cases h
                  simp only [List.length_cons] at hsp ⊢
                  omega
                · have := ihE _ _ _ _ h
                  simp only [List.length_cons] at hsp this ⊢
                  omega
          · split at h
            · -- string
              cases hstr : scanString (cs.length + 1) cs with
              | invalid => simp [hstr] at h
              | starved => simp [hstr] at h
              | ok s r =>
                simp only [hstr, Scan.ok.injEq] at h
                obtain ⟨-, rfl⟩ := h
                have := scanString_length _ _ _ _ hstr
                simp only [List.length_cons]
                omega
            · split at h
              · -- number
                cases hnum : scanNumber (c :: cs) with
                | none => simp [hnum] at h
                | some r =>
                  simp only [hnum, Scan.ok.injEq] at h
                  obtain ⟨-, rfl⟩ := h
                  exact scanNumber_length _ _ hnum
              · split at h
                · cases hlit : scanLiteral ['r', 'u', 'e'] cs with
                  | none => simp [hlit] at h
                  | some r =>
                    simp only [hlit, Scan.ok.injEq] at h
                    obtain ⟨-, rfl⟩ := h
                    have := scanLiteral_length _ _ _ hlit
                    simp only [List.length_cons]
                    omega
                · split at h
                  · cases hlit : scanLiteral ['a', 'l', 's', 'e'] cs with
                    | none => simp [hlit] at h
                    | some r =>
                      simp only [hlit, Scan.ok.injEq] at h
                      obtain ⟨-, rfl⟩ := h
                      have := scanLiteral_length _ _ _ hlit
                      simp only [List.length_cons]
                      omega
                  · split at h
                    · cases hlit : scanLiteral ['u', 'l', 'l'] cs with
                      | none => simp [hlit] at h
                      | some r =>
                        simp only [hlit, Scan.ok.injEq] at h
                        obtain ⟨-, rfl⟩ := h
                        have := scanLiteral_length _ _ _ hlit
                        simp only [List.length_cons]
                        omega
                    · cases h
    · intro depth cs acc v rest h
      cases cs with
      | nil => simp [scanMembers] at h
      | cons c cs =>
        simp only [scanMembers] at h
        split at h
        · cases hstr : scanString (cs.length + 1) cs with
          | invalid => simp [hstr] at h
          | starved => simp [hstr] at h
          | ok key r =>
            have h1 := scanString_length _ _ _ _ hstr
            simp only [hstr] at h
            have hsp := skipSpace_length r
            cases hs : skipSpace r with
            | nil => simp [hs] at h
            | cons d ds =>
              rw [hs] at hsp
              simp only [hs] at h
              split at h
              · have hsp2 := skipSpace_length ds
                cases hv : scanValue n depth (skipSpace ds) with
                | invalid => simp [hv] at h
                | starved => simp [hv] at h
                | ok v1 r1 =>
                  have h2 := ihV _ _ _ _ hv
                  simp only [hv] at h
                  have hsp3 := skipSpace_length r1
                  cases hs1 : skipSpace r1 with
                  | nil => simp [hs1] at h
                  | cons e es =>
                    rw [hs1] at hsp3
                    simp only [hs1] at h
                    have hsp4 := skipSpace_length es
                    split at h
                    · have h3 := ihM _ _ _ _ _ h
                      simp only [List.length_cons] at hsp hsp3 ⊢
                      omega
                    · split at h
                      · simp only [Scan.ok.injEq] at h
                        obtain ⟨-, rfl⟩ := h
                        simp only [List.length_cons] at hsp hsp3 ⊢
                        omega
                      · cases h
              · cases h
        · cases h
    · intro depth cs v rest h
      simp only [scanElements] at h
      cases hv : scanValue n depth cs with
      | invalid => simp [hv] at h
      | starved => simp [hv] at h
      | ok v1 r1 =>
        have h2 := ihV _ _ _ _ hv
        simp only [hv] at h
        have hsp3 := skipSpace_length r1
        cases hs1 : skipSpace r1 with
        | nil => simp [hs1] at h
        | cons e es =>
          rw [hs1] at hsp3
          simp only [hs1] at h
          have hsp4 := skipSpace_length es
          split at h
          · have h3 := ihE _ _ _ _ h
            simp only [List.length_cons] at hsp3
            omega
          · split at h
            · simp only [Scan.ok.injEq] at h
              obtain ⟨-, rfl⟩ := h
              simp only [List.length_cons] at hsp3
              omega
            · cases h

/-- With a budget of twice the length of the text, no scan runs out of budget. -/
theorem scan_not_starved (fuel : Nat) :
    (∀ depth cs, 2 * cs.length + 1 ≤ fuel → scanValue fuel depth cs ≠ .starved)
    ∧ (∀ depth cs acc, 2 * cs.length + 2 ≤ fuel → scanMembers fuel depth cs acc ≠ .starved)
    ∧ (∀ depth cs, 2 * cs.length + 2 ≤ fuel → scanElements fuel depth cs ≠ .starved) := by
  induction fuel with
  | zero =>
    refine ⟨?_, ?_, ?_⟩
    · intro depth cs h; omega
    · intro depth cs acc h; omega
    · intro depth cs h; omega
  | succ n ih =>
    obtain ⟨ihV, ihM, ihE⟩ := ih
    refine ⟨?_, ?_, ?_⟩
    · intro depth cs hf
      cases cs with
      | nil => simp [scanValue]
      | cons c cs =>
        simp only [List.length_cons] at hf
        simp only [scanValue]
        have hsp := skipSpace_length cs
        split
        · split
          · simp
          · cases hs : skipSpace cs with
            | nil => simp
            | cons d ds =>
              rw [hs] at hsp
              simp only [List.length_cons] at hsp
              simp only
              split
              · simp
              · exact ihM _ _ _ (by simp only [List.length_cons]; omega)
        · split
          · split
            · simp
            · cases hs : skipSpace cs with
              | nil => simp
              | cons d ds =>
                rw [hs] at hsp
                simp only [List.length_cons] at hsp
                simp only
                split
                · simp
                · exact ihE _ _ (by simp only [List.length_cons]; omega)
          · split
            · have hns := scanString_not_starved (cs.length + 1) cs (Nat.lt_succ_self _)
              cases hstr : scanString (cs.length + 1) cs with
              | invalid => simp
              | starved => exact absurd hstr hns
              | ok s r => simp
            · split
              · cases scanNumber (c :: cs) <;> simp
              · split
                · cases scanLiteral ['r', 'u', 'e'] cs <;> simp
                · split
                  · cases scanLiteral ['a', 'l', 's', 'e'] cs <;> simp
                  · split
                    · cases scanLiteral ['u', 'l', 'l'] cs <;> simp
                    · simp
    · intro depth cs acc hf
      cases cs with
      | nil => simp [scanMembers]
      | cons c cs =>
        simp only [List.length_cons] at hf
        simp only [scanMembers]
        split
        · have hns := scanString_not_starved (cs.length + 1) cs (Nat.lt_succ_self _)
          cases hstr : scanString (cs.length + 1) cs with
          | invalid => simp
          | starved => exact absurd hstr hns
          | ok key r =>
            have h1 := scanString_length _ _ _ _ hstr
            have hsp := skipSpace_length r
            simp only
            cases hs : skipSpace r with
            | nil => simp
            | cons d ds =>
              rw [hs] at hsp
              simp only [List.length_cons] at hsp
              simp only
              split
              · have hsp2 := skipSpace_length ds
                have hnv := ihV depth (skipSpace ds) (by omega)
                cases hv : scanValue n depth (skipSpace ds) with
                | invalid => simp
                | starved => exact absurd hv hnv
                | ok v1 r1 =>
                  have h2 := (scan_length n).1 _ _ _ _ hv
                  have hsp3 := skipSpace_length r1
                  simp only
                  cases hs1 : skipSpace r1 with
                  | nil => simp
                  | cons e es =>
                    rw [hs1] at hsp3
                    simp only [List.length_cons] at hsp3
                    have hsp4 := skipSpace_length es
                    simp only
                    split
                    · exact ihM _ _ _ (by omega)
                    · split <;> simp
              · simp
        · simp
    · intro depth cs hf
      simp only [scanElements]
      have hnv := ihV depth cs (by omega)
      cases hv : scanValue n depth cs with
      | invalid => simp
      | starved => exact absurd hv hnv
      | ok v1 r1 =>
        have h2 := (scan_length n).1 _ _ _ _ hv
        have hsp3 := skipSpace_length r1
        simp only
        cases hs1 : skipSpace r1 with
        | nil => simp
        | cons e es =>
          rw [hs1] at hsp3
          simp only [List.length_cons] at hsp3
          have hsp4 := skipSpace_length es
          simp only
          split
          · exact ihE _ _ (by omega)
          · split <;> simp

/-- The scan of a whole text ends within its budget: it yields a value or a syntax error. -/
theorem scanDocument_not_starved (cs : List Char) : scanDocument cs ≠ .starved := by
  unfold scanDocument
  have h := (scan_not_starved (2 * cs.length + 1)).1 0 (skipSpace cs)
    (by have := skipSpace_length cs; omega)
  cases hv : scanValue (2 * cs.length + 1) 0 (skipSpace cs) with
  | invalid => simp
  | starved => exact absurd hv h
  | ok v r =>
    simp only
    split <;> simp

/-- An object none of whose keys selects a field decodes to the struct it started from. -/
theorem decodeMembers_unknown (members : List (List Char × JKind))
    (h : ∀ m ∈ members, field m.1 = none) (st : SpecTokenInfo × Option JSONError) :
    decodeMembers members st = st := by
  induction members generalizing st with
  | nil => rfl
  | cons m ms ih =>
    obtain ⟨key, k⟩ := m
    obtain ⟨t, saved⟩ := st
    have hk : field key = none := h (key, k) (List.mem_cons_self _ _)
    simp only [decodeMembers, hk]
    exact ih (fun m hm => h m (List.mem_cons_of_mem _ hm)) _

/-- A well-formed object none of whose keys selects a field is accepted and gives the zero
envelope. -/
theorem Unmarshal_unknown (data : String) (members : List (List Char × JKind))
    (hdoc : scanDocument data.data = .ok (.object members) [])
    (h : ∀ m ∈ members, field m.1 = none) :
    Unmarshal data = .ok { AccessToken := [], RefreshToken := [], Expiry := [] } := by
  unfold Unmarshal
  simp only [hdoc, decodeMembers_unknown members h]

/-- A type error that has been recorded stays recorded. -/
theorem decodeMembers_saved (members : List (List Char × JKind)) (t : SpecTokenInfo)
    (e : JSONError) : (decodeMembers members (t, some e)).2 = some e := by
  induction members generalizing t with
  | nil => rfl
  | cons m ms ih =>
    obtain ⟨key, k⟩ := m
    simp only [decodeMembers]
    split
    · exact ih t
    · split
      · exact ih _
      · exact ih t
      · exact ih t

/-- An object that gives a field a value other than a string or `null` records a type
error. -/
theorem decodeMembers_typeError (members : List (List Char × JKind))
    (h : ∃ m ∈ members, field m.1 ≠ none ∧ m.2 ≠ .null ∧ ∀ s, m.2 ≠ .string s)
    (t : SpecTokenInfo) : (decodeMembers members (t, none)).2 = some typeError := by
  induction members generalizing t with
  | nil =>
    obtain ⟨m, hm, _⟩ := h
    cases hm
  | cons m ms ih =>
    obtain ⟨key, k⟩ := m
    obtain ⟨b, hb, hfield, hnull, hstr⟩ := h
    have htail : (b = (key, k)) ∨ b ∈ ms := by
      cases hb with
      | head => exact Or.inl rfl
      | tail _ hmem => exact Or.inr hmem
    simp only [decodeMembers]
    cases hf : field key with
    | none =>
      rcases htail with hhead | hmem
      · rw [hhead] at hfield
        exact absurd hf hfield
      · exact ih ⟨b, hmem, hfield, hnull, hstr⟩ t
    | some f =>
      cases k with
      | string s =>
        rcases htail with hhead | hmem
        · rw [hhead] at hstr
          exact absurd rfl (hstr s)
        · exact ih ⟨b, hmem, hfield, hnull, hstr⟩ _
      | null =>
        rcases htail with hhead | hmem
        · rw [hhead] at hnull
          exact absurd rfl hnull
        · exact ih ⟨b, hmem, hfield, hnull, hstr⟩ t
      | bool => exact decodeMembers_saved ms t typeError
      | number => exact decodeMembers_saved ms t typeError
      | array => exact decodeMembers_saved ms t typeError
      | object => exact decodeMembers_saved ms t typeError

/-- A well-formed object that gives a field a value other than a string or `null` is rejected
with a type error. -/
theorem Unmarshal_typeError (data : String) (members : List (List Char × JKind))
    (hdoc : scanDocument data.data = .ok (.object members) [])
    (h : ∃ m ∈ members, field m.1 ≠ none ∧ m.2 ≠ .null ∧ ∀ s, m.2 ≠ .string s) :
    Unmarshal data = .error typeError := by
  have hd := decodeMembers_typeError members h
    { AccessToken := [], RefreshToken := [], Expiry := [] }
  unfold Unmarshal
  simp only [hdoc]
  cases hr : decodeMembers members
      ({ AccessToken := [], RefreshToken := [], Expiry := [] }, none) with
  | mk t saved =>
    rw [hr] at hd
    simp only at hd
    subst hd
    rfl

/-- A well-formed value that is neither an object nor `null` is rejected with a type error. -/
theorem Unmarshal_not_object (data : String) (v : JValue)
    (hdoc : scanDocument data.data = .ok v []) (ho : v.kind ≠ .object) (hn : v.kind ≠ .null) :
    Unmarshal data = .error typeError := by
  unfold Unmarshal
  cases v with
  | object ms => exact absurd rfl ho
  | null => exact absurd rfl hn
  | bool => simp only [hdoc]
  | number => simp only [hdoc]
  | string s => simp only [hdoc]
  | array => simp only [hdoc]

/-- The decoder on sample texts: keys are matched up to case, unknown members of any shape are
skipped, the last of two members with the same key wins, `null` leaves a field as it is, and
escapes are resolved. -/
theorem Unmarshal_samples :
    Unmarshal "\x7b\"ACCESS_TOKEN\":\"a\",\"x\":\x7b\"y\":[1,-2.5e-3,true,\x7b\"z\":null\x7d]\x7d\x7d"
      = .ok { AccessToken := GoString.ofString "a", RefreshToken := [], Expiry := [] }
    ∧ Unmarshal " \x7b \"expiry\" : \"e\" , \"expiry\" : null , \"refresh_token\" : \"r1\" , \"refresh_token\" : \"r2\" \x7d "
      = .ok { AccessToken := [], RefreshToken := GoString.ofString "r2",
              Expiry := GoString.ofString "e" }
    ∧ Unmarshal "\x7b\"access_token\":\"a\\u00e9\\n\\ud83d\\ude00\\ud83d\"\x7d"
      = .ok { AccessToken := [.rune 'a', .rune (Char.ofNat 0xE9), .rune (Char.ofNat 10),
                .rune (Char.ofNat 0x1F600), .rune (Char.ofNat 0xFFFD)],
              RefreshToken := [], Expiry := [] }
    ∧ Unmarshal "null" = .ok { AccessToken := [], RefreshToken := [], Expiry := [] }
    ∧ Unmarshal "\x7b\"access_token\":5\x7d" = .error typeError
    ∧ Unmarshal "[]" = .error typeError
    ∧ Unmarshal "\x7b\"access_token\":\"a\",\x7d" = .error syntaxError
    ∧ Unmarshal "\x7b\"x\":01\x7d" = .error syntaxError
    ∧ Unmarshal "\x7b\x7d x" = .error syntaxError
    ∧ Unmarshal "" = .error syntaxError :=
  ⟨rfl, rfl, rfl, rfl, rfl, rfl, rfl, rfl, rfl, rfl⟩

/-- The encoder on a sample envelope: the quote, the backslash, control characters, `<`, `>`,
`&`, U+2028 and a byte that is not valid UTF-8 are escaped; other characters are copied. -/
theorem Marshal_sample :
    Marshal (some { AccessToken := [.rune 'a', .rune quote, .rune backslash, .rune (Char.ofNat 10),
                      .rune (Char.ofNat 1), .rune (Char.ofNat 60), .rune (Char.ofNat 0x2028),
                      .invalid 0xFF, .rune (Char.ofNat 0xE9), .rune (Char.ofNat 0x7F)],
                    RefreshToken := [], Expiry := GoString.ofString "e" })
      = .ok (String.mk ("\x7b\"access_token\":\"a\\\"\\\\\\n\\u0001\\u003c\\u2028\\ufffd".data
          ++ [Char.ofNat 0xE9, Char.ofNat 0x7F]
          ++ "\",\"refresh_token\":\"\",\"expiry\":\"e\"\x7d".data))
    ∧ Marshal none = .ok "null" :=
  ⟨rfl, rfl⟩

theorem Marshal_ne_unknown (info : Option SpecTokenInfo) :
    Marshal info ≠ .ok "\x7b\"unknown\":\"x\"\x7d" := by
  intro h
  cases info with
  | none =>
    have h0 : (Except.ok "null" : Except JSONError String) = .ok "\x7b\"unknown\":\"x\"\x7d" := h
    injection h0 with h1
    exact absurd h1 (by decide)
  | some t =>
    have h1 : (some 'a' : Option Char) = some 'u' :=
      congrArg (fun r => match r with
        | Except.ok (s : String) => s.data.get? 2
        | Except.error _ => none) h
    exact absurd h1 (by decide)

end EncodingJSON

/-! ## Token envelope -/

/-- The two token methods of the in-memory backend compose: when `json.Marshal` writes `data`
for the envelope and `json.Unmarshal` reads `data` as `t`, `SetTokenInfo` returns no error and
the `GetTokenInfo` that follows returns `t` with no error. -/
theorem MemoryStorage.SetTokenInfo_GetTokenInfo {TokenInfo : Type} (J : JSON TokenInfo)
    (s : MemoryStorage) (info : Option TokenInfo) (t : TokenInfo) (data : String)
    (hm : J.Marshal info = .ok data) (hu : J.Unmarshal data = .ok t) :
    (s.SetTokenInfo J info).1 = none
    ∧ (s.SetTokenInfo J info).2.GetTokenInfo J = (some t, none) := by
  simp [MemoryStorage.SetTokenInfo, MemoryStorage.GetTokenInfo, hm, hu]

/-- `GetTokenInfo` hands on the verdict of `json.Unmarshal`, for any codec and both backends:
a stored string that `json.Unmarshal` rejects with error `e` gives a `nil` envelope together
with `e`, which does not match `keyring.ErrNotFound`; in every state the result is either a
`nil` envelope with an error or an envelope with a `nil` error, and an envelope that is returned
is the complete result of a successful `json.Unmarshal` of the stored string. -/
theorem GetTokenInfo_of_Unmarshal {σ : Type} {TokenInfo : Type} (J : JSON TokenInfo)
    (m : MemoryStorage) (P : Keyring σ) (ks : KeyringStorage) (w : σ) :
    (∀ raw e, m.data keyTokenInfo = some raw → J.Unmarshal raw = .error e →
        m.GetTokenInfo J = (none, some (GoError.json e))
        ∧ errorsIs (m.GetTokenInfo J).2 GoError.ErrNotFound = false)
    ∧ (∀ raw e, (P.Get w ks.service keyTokenInfo).1 = (raw, none) →
        J.Unmarshal raw = .error e →
        ks.GetTokenInfo P J w = ((none, some (GoError.json e)), (P.Get w ks.service keyTokenInfo).2)
        ∧ errorsIs (ks.GetTokenInfo P J w).1.2 GoError.ErrNotFound = false)
    ∧ (((m.GetTokenInfo J).1 = none ∧ (m.GetTokenInfo J).2 ≠ none)
        ∨ ((m.GetTokenInfo J).2 = none ∧ ∃ raw info, m.data keyTokenInfo = some raw
            ∧ J.Unmarshal raw = .ok info ∧ (m.GetTokenInfo J).1 = some info))
    ∧ (((ks.GetTokenInfo P J w).1.1 = none ∧ (ks.GetTokenInfo P J w).1.2 ≠ none)
        ∨ ((ks.GetTokenInfo P J w).1.2 = none
            ∧ ∃ raw info, (P.Get w ks.service keyTokenInfo).1 = (raw, none)
            ∧ J.Unmarshal raw = .ok info ∧ (ks.GetTokenInfo P J w).1.1 = some info)) := by
  refine ⟨?_, ?_, ?_, ?_⟩
  · intro raw e hr he
    have h : m.GetTokenInfo J = (none, some (GoError.json e)) := by
      simp [MemoryStorage.GetTokenInfo, hr, he]
    exact ⟨h, by rw [h]; rfl⟩
  · intro raw e hr he
    have h : ks.GetTokenInfo P J w
        = ((none, some (GoError.json e)), (P.Get w ks.service keyTokenInfo).2) := by
      unfold KeyringStorage.GetTokenInfo
      split
      · simp_all
      · simp_all
    exact ⟨h, by rw [h]; rfl⟩
  · unfold MemoryStorage.GetTokenInfo
    split
    · simp
    · split <;> simp_all
  · unfold KeyringStorage.GetTokenInfo
    split
    · simp
    · split <;> simp_all

/-- Counterexample to C6 as stated: an access token that holds the byte `0xFF`, which is not
valid UTF-8.  `SetTokenInfo` returns no error, and the `GetTokenInfo` that follows returns an
envelope whose access token holds U+FFFD in place of the byte, not the envelope that was
set. -/
theorem token_round_trip_invalid_utf8_counterexample :
    (NewMemoryStorage.SetTokenInfo EncodingJSON.codec
        (some { AccessToken := [.rune 'b', .rune 'a', .rune 'd', .invalid 0xFF, .rune 'u',
                  .rune 't', .rune 'f', .rune '8'],
                RefreshToken := [], Expiry := [] })).1 = none
    ∧ (NewMemoryStorage.SetTokenInfo EncodingJSON.codec
        (some { AccessToken := [.rune 'b', .rune 'a', .rune 'd', .invalid 0xFF, .rune 'u',
                  .rune 't', .rune 'f', .rune '8'],
                RefreshToken := [], Expiry := [] })).2.GetTokenInfo EncodingJSON.codec
      = (some { AccessToken := [.rune 'b', .rune 'a', .rune 'd', .rune (Char.ofNat 0xFFFD),
                  .rune 'u', .rune 't', .rune 'f', .rune '8'],
                RefreshToken := [], Expiry := [] }, none)
    ∧ ({ AccessToken := [.rune 'b', .rune 'a', .rune 'd', .rune (Char.ofNat 0xFFFD), .rune 'u',
            .rune 't', .rune 'f', .rune '8'],
          RefreshToken := [], Expiry := [] } : SpecTokenInfo)
      ≠ { AccessToken := [.rune 'b', .rune 'a', .rune 'd', .invalid 0xFF, .rune 'u', .rune 't',
            .rune 'f', .rune '8'],
          RefreshToken := [], Expiry := [] } :=
  ⟨rfl, rfl, by decide⟩

/-- C6, amended. Token envelope round trip through `encoding/json`, in-memory backend: in every
storage state and for every envelope, `SetTokenInfo` returns no error and the `GetTokenInfo`
that follows returns, with no error, the envelope with every byte that is not valid UTF-8
replaced by U+FFFD; so for every envelope whose string fields are valid UTF-8 it returns the
envelope itself, field for field. -/
theorem memory_token_round_trip (s : MemoryStorage) (t : SpecTokenInfo) :
    (s.SetTokenInfo EncodingJSON.codec (some t)).1 = none
    ∧ (s.SetTokenInfo EncodingJSON.codec (some t)).2.GetTokenInfo EncodingJSON.codec
      = (some { AccessToken := EncodingJSON.toValidUTF8 t.AccessToken,
                RefreshToken := EncodingJSON.toValidUTF8 t.RefreshToken,
                Expiry := EncodingJSON.toValidUTF8 t.Expiry }, none)
    ∧ (t.AccessToken.valid = true → t.RefreshToken.valid = true → t.Expiry.valid = true →
        (s.SetTokenInfo EncodingJSON.codec (some t)).2.GetTokenInfo EncodingJSON.codec
          = (some t, none)) := by
  obtain ⟨data, hm, hu⟩ := EncodingJSON.Unmarshal_Marshal t
  have h := MemoryStorage.SetTokenInfo_GetTokenInfo EncodingJSON.codec s (some t) _ data hm hu
  refine ⟨h.1, h.2, ?_⟩
  intro ha hr he
  rw [h.2, EncodingJSON.toValidUTF8_of_valid _ ha, EncodingJSON.toValidUTF8_of_valid _ hr,
    EncodingJSON.toValidUTF8_of_valid _ he]

/-- Witness of C6, amended: an envelope with only the access token populated, and the envelope
of the scenario with all three fields populated. -/
theorem memory_token_round_trip_witness :
    ((NewMemoryStorage.SetTokenInfo EncodingJSON.codec
        (some { AccessToken := GoString.ofString "tok1", RefreshToken := [],
                Expiry := [] })).2.GetTokenInfo EncodingJSON.codec
      = (some { AccessToken := GoString.ofString "tok1", RefreshToken := [], Expiry := [] },
          none))
    ∧ ((NewMemoryStorage.SetTokenInfo EncodingJSON.codec
        (some { AccessToken := GoString.ofString "tok1",
                RefreshToken := GoString.ofString "ref1",
                Expiry := GoString.ofString "2025-01-01T00:00:00Z" })).2.GetTokenInfo
          EncodingJSON.codec
      = (some { AccessToken := GoString.ofString "tok1",
                RefreshToken := GoString.ofString "ref1",
                Expiry := GoString.ofString "2025-01-01T00:00:00Z" }, none)) :=
  ⟨(memory_token_round_trip NewMemoryStorage
      { AccessToken := GoString.ofString "tok1", RefreshToken := [], Expiry := [] }).2.2
      (by decide) (by decide) (by decide),
    (memory_token_round_trip NewMemoryStorage
      { AccessToken := GoString.ofString "tok1", RefreshToken := GoString.ofString "ref1",
        Expiry := GoString.ofString "2025-01-01T00:00:00Z" }).2.2
      (by decide) (by decide) (by decide)⟩

/-- Counterexample to C7 as stated: the stored string is the object with the single member
`unknown`, which `json.Marshal` writes for no envelope.  On both backends `GetTokenInfo` returns
the envelope with all fields empty and a `nil` error. -/
theorem token_decode_unknown_field_counterexample :
    (∀ info, EncodingJSON.codec.Marshal info ≠ .ok "\x7b\"unknown\":\"x\"\x7d")
    ∧ MemoryStorage.GetTokenInfo EncodingJSON.codec
        { data := GoMap.make.insert keyTokenInfo "\x7b\"unknown\":\"x\"\x7d" }
      = (some { AccessToken := [], RefreshToken := [], Expiry := [] }, none)
    ∧ ((NewKeyringStorage "svc").GetTokenInfo idealKeyring EncodingJSON.codec
        (idealKeyring.Set IdealState.empty "svc" keyTokenInfo
          "\x7b\"unknown\":\"x\"\x7d").2).1
      = (some { AccessToken := [], RefreshToken := [], Expiry := [] }, none) :=
  ⟨EncodingJSON.Marshal_ne_unknown, rfl, rfl⟩

/-- C7, amended. Deserialization through `encoding/json`, both backends: when `json.Unmarshal`
rejects the string stored under `token_info`, `GetTokenInfo` returns a `nil` envelope together
with the error, which does not match `keyring.ErrNotFound`.  `json.Unmarshal` rejects text that
is not well-formed JSON, a value that is neither an object nor `null`, and an object that gives
a field of the envelope a value that is neither a string nor `null`.  `GetTokenInfo` never
returns an envelope together with an error, and an envelope it returns is the complete result
of a successful `json.Unmarshal`.  A well-formed object none of whose keys names a field of the
envelope is not rejected: it gives the envelope with all fields empty and a `nil` error. -/
theorem token_decode_fails_closed {σ : Type} (m : MemoryStorage) (P : Keyring σ)
    (ks : KeyringStorage) (w : σ) :
    (∀ raw e, m.data keyTokenInfo = some raw → EncodingJSON.Unmarshal raw = .error e →
        m.GetTokenInfo EncodingJSON.codec = (none, some (GoError.json e))
        ∧ errorsIs (m.GetTokenInfo EncodingJSON.codec).2 GoError.ErrNotFound = false)
    ∧ (∀ raw e, (P.Get w ks.service keyTokenInfo).1 = (raw, none) →
        EncodingJSON.Unmarshal raw = .error e →
        ks.GetTokenInfo P EncodingJSON.codec w
          = ((none, some (GoError.json e)), (P.Get w ks.service keyTokenInfo).2)
        ∧ errorsIs (ks.GetTokenInfo P EncodingJSON.codec w).1.2 GoError.ErrNotFound = false)
    ∧ (∀ raw, EncodingJSON.scanDocument raw.data = .invalid →
        EncodingJSON.Unmarshal raw = .error EncodingJSON.syntaxError)
    ∧ (((m.GetTokenInfo EncodingJSON.codec).1 = none
          ∧ (m.GetTokenInfo EncodingJSON.codec).2 ≠ none)
        ∨ ((m.GetTokenInfo EncodingJSON.codec).2 = none
          ∧ ∃ raw info, m.data keyTokenInfo = some raw
            ∧ EncodingJSON.Unmarshal raw = .ok info
            ∧ (m.GetTokenInfo EncodingJSON.codec).1 = some info))
    ∧ (((ks.GetTokenInfo P EncodingJSON.codec w).1.1 = none
          ∧ (ks.GetTokenInfo P EncodingJSON.codec w).1.2 ≠ none)
        ∨ ((ks.GetTokenInfo P EncodingJSON.codec w).1.2 = none
          ∧ ∃ raw info, (P.Get w ks.service keyTokenInfo).1 = (raw, none)
            ∧ EncodingJSON.Unmarshal raw = .ok info
            ∧ (ks.GetTokenInfo P EncodingJSON.codec w).1.1 = some info))
    ∧ (∀ raw members, m.data keyTokenInfo = some raw →
        EncodingJSON.scanDocument raw.data = .ok (.object members) [] →
        (∀ mem ∈ members, EncodingJSON.field mem.1 = none) →
        m.GetTokenInfo EncodingJSON.codec
          = (some { AccessToken := [], RefreshToken := [], Expiry := [] }, none))
    ∧ (∀ raw v, EncodingJSON.scanDocument raw.data = .ok v [] →
        v.kind ≠ .object → v.kind ≠ .null →
        EncodingJSON.Unmarshal raw = .error EncodingJSON.typeError)
    ∧ (∀ raw members, EncodingJSON.scanDocument raw.data = .ok (.object members) [] →
        (∃ mem ∈ members, EncodingJSON.field mem.1 ≠ none ∧ mem.2 ≠ .null
          ∧ ∀ str, mem.2 ≠ .string str) →
        EncodingJSON.Unmarshal raw = .error EncodingJSON.typeError) := by
  obtain ⟨h1, h2, h3, h4⟩ := GetTokenInfo_of_Unmarshal EncodingJSON.codec m P ks w
  refine ⟨h1, h2, ?_, h3, h4, ?_, EncodingJSON.Unmarshal_not_object,
    EncodingJSON.Unmarshal_typeError⟩
  · intro raw hdoc
    simp only [EncodingJSON.Unmarshal, hdoc]
  · intro raw members hr hdoc hunknown
    have hu := EncodingJSON.Unmarshal_unknown raw members hdoc hunknown
    have hu' : EncodingJSON.codec.Unmarshal raw
        = .ok { AccessToken := [], RefreshToken := [], Expiry := [] } := hu
    simp [MemoryStorage.GetTokenInfo, hr, hu']

/-- Witness of C7, amended: the string `garbage` written under `token_info`, in the map of the
in-memory backend and in the ideal credential service, is rejected with a syntax error; the
empty object is accepted. -/
theorem token_decode_fails_closed_witness :
    MemoryStorage.GetTokenInfo EncodingJSON.codec
        { data := GoMap.make.insert keyTokenInfo "garbage" }
      = (none, some (GoError.json EncodingJSON.syntaxError))
    ∧ ((NewKeyringStorage "svc").GetTokenInfo idealKeyring EncodingJSON.codec
        (idealKeyring.Set IdealState.empty "svc" keyTokenInfo "garbage").2).1
      = (none, some (GoError.json EncodingJSON.syntaxError))
    ∧ MemoryStorage.GetTokenInfo EncodingJSON.codec
        { data := GoMap.make.insert keyTokenInfo "\x7b\x7d" }
      = (some { AccessToken := [], RefreshToken := [], Expiry := [] }, none)
    ∧ EncodingJSON.Unmarshal "[\"tok1\"]" = .error EncodingJSON.typeError
    ∧ EncodingJSON.Unmarshal "\x7b\"access_token\":5\x7d" = .error EncodingJSON.typeError :=
  ⟨((token_decode_fails_closed { data := GoMap.make.insert keyTokenInfo "garbage" }
      idealKeyring (NewKeyringStorage "svc")
      (idealKeyring.Set IdealState.empty "svc" keyTokenInfo "garbage").2).1
      "garbage" EncodingJSON.syntaxError (by rfl) (by rfl)).1,
    congrArg Prod.fst ((token_decode_fails_closed
      { data := GoMap.make.insert keyTokenInfo "garbage" } idealKeyring
      (NewKeyringStorage "svc")
      (idealKeyring.Set IdealState.empty "svc" keyTokenInfo "garbage").2).2.1
      "garbage" EncodingJSON.syntaxError (by rfl) (by rfl)).1,
    (token_decode_fails_closed { data := GoMap.make.insert keyTokenInfo "\x7b\x7d" }
      idealKeyring (NewKeyringStorage "svc") IdealState.empty).2.2.2.2.2.1
      "\x7b\x7d" [] (by rfl) (by rfl) (by simp),
    (token_decode_fails_closed NewMemoryStorage idealKeyring (NewKeyringStorage "svc")
      IdealState.empty).2.2.2.2.2.2.1 "[\"tok1\"]" EncodingJSON.JValue.array (by rfl)
      (by decide) (by decide),
    (token_decode_fails_closed NewMemoryStorage idealKeyring (NewKeyringStorage "svc")
      IdealState.empty).2.2.2.2.2.2.2 "\x7b\"access_token\":5\x7d"
      [("access_token".data, EncodingJSON.JKind.number)] (by rfl)
      ⟨("access_token".data, EncodingJSON.JKind.number), by simp, by decide, by decide,
        by intro str; exact EncodingJSON.JKind.noConfusion⟩⟩

/-- C8. Atomic `SetTokenInfo`, both backends: when `json.Marshal` fails with error `e`,
`SetTokenInfo` returns `e`; the in-memory storage is unchanged, so `GetTokenInfo` returns what
it returned before; the OS backend leaves the platform state as it was and makes no call to the
platform service. -/
theorem set_token_atomic {σ : Type} {TokenInfo : Type} (J : JSON TokenInfo) (m : MemoryStorage)
    (P : Keyring σ) (ks : KeyringStorage) (w : σ) (log : List Call) (info : Option TokenInfo)
    (e : JSONError) (h : J.Marshal info = .error e) :
    m.SetTokenInfo J info = (some (GoError.json e), m)
    ∧ (m.SetTokenInfo J info).2.GetTokenInfo J = m.GetTokenInfo J
    ∧ ks.SetTokenInfo P J w info = (some (GoError.json e), w)
    ∧ ks.SetTokenInfo P.traced J (log, w) info = (some (GoError.json e), (log, w)) := by
  simp [MemoryStorage.SetTokenInfo, KeyringStorage.SetTokenInfo, h]

/-- Witness of C8: a stored envelope survives a `SetTokenInfo` whose envelope does not
serialize. -/
theorem set_token_atomic_witness :
    MemoryStorage.GetTokenInfo SampleTokenInfo.codec
      (MemoryStorage.SetTokenInfo SampleTokenInfo.codec
        (NewMemoryStorage.SetTokenInfo SampleTokenInfo.codec (some ⟨"tok1", "ref1", ""⟩)).2
        (some ⟨"a;b", "", ""⟩)).2
      = MemoryStorage.GetTokenInfo SampleTokenInfo.codec
        (NewMemoryStorage.SetTokenInfo SampleTokenInfo.codec (some ⟨"tok1", "ref1", ""⟩)).2
    ∧ (NewKeyringStorage "svc").SetTokenInfo idealKeyring.traced SampleTokenInfo.codec
        ([], IdealState.empty) (some ⟨"a;b", "", ""⟩)
      = (some (GoError.json { msg := "unsupported value" }), ([], IdealState.empty)) :=
  ⟨(set_token_atomic SampleTokenInfo.codec
      (NewMemoryStorage.SetTokenInfo SampleTokenInfo.codec (some ⟨"tok1", "ref1", ""⟩)).2
      idealKeyring (NewKeyringStorage "svc") IdealState.empty [] (some ⟨"a;b", "", ""⟩)
      { msg := "unsupported value" } (by rfl)).2.1,
    (set_token_atomic SampleTokenInfo.codec
      (NewMemoryStorage.SetTokenInfo SampleTokenInfo.codec (some ⟨"tok1", "ref1", ""⟩)).2
      idealKeyring (NewKeyringStorage "svc") IdealState.empty [] (some ⟨"a;b", "", ""⟩)
      { msg := "unsupported value" } (by rfl)).2.2.2⟩

/-! ## The two backends side by side -/

/-- One call keeps the in-memory map and the entries of the ideal service under the service
name in step, and returns the same result on both backends. -/
theorem parity_step {TokenInfo : Type} (J : JSON TokenInfo) (name : String) (m : MemoryStorage)
    (w : IdealState) (h : ∀ j, w name j = m.data j) (op : Op TokenInfo) :
    ((NewKeyringStorage name).step idealKeyring J w op).1 = (m.step J op).1
    ∧ ∀ j, ((NewKeyringStorage name).step idealKeyring J w op).2 name j
        = (m.step J op).2.data j := by
  cases op
  case GetAPIKey =>
    simp only [KeyringStorage.step, MemoryStorage.step, KeyringStorage.GetAPIKey,
      MemoryStorage.GetAPIKey, NewKeyringStorage, idealKeyring, h]
    cases m.data keyAPIKey <;> simp [h]
  case SetAPIKey key =>
    simp [KeyringStorage.step, MemoryStorage.step, KeyringStorage.SetAPIKey,
      MemoryStorage.SetAPIKey, NewKeyringStorage, idealKeyring, GoMap.insert, h]
  case DeleteAPIKey =>
    simp only [KeyringStorage.step, MemoryStorage.step, KeyringStorage.DeleteAPIKey,
      MemoryStorage.DeleteAPIKey, NewKeyringStorage, idealKeyring, h]
    cases hk : m.data keyAPIKey <;> simp [errorsIs, GoError.is, GoMap.delete, h]
    intro j
    by_cases hj : j = keyAPIKey <;> simp [hj, hk]
  case GetTokenInfo =>
    simp only [KeyringStorage.step, MemoryStorage.step, KeyringStorage.GetTokenInfo,
      MemoryStorage.GetTokenInfo, NewKeyringStorage, idealKeyring, h]
    cases m.data keyTokenInfo with
    | none => simp [h]
    | some data => cases hu : J.Unmarshal data <;> simp [hu, h]
  case SetTokenInfo info =>
    simp only [KeyringStorage.step, MemoryStorage.step, KeyringStorage.SetTokenInfo,
      MemoryStorage.SetTokenInfo, NewKeyringStorage, idealKeyring]
    cases J.Marshal info <;> simp [GoMap.insert, h]
  case DeleteTokenInfo =>
    simp only [KeyringStorage.step, MemoryStorage.step, KeyringStorage.DeleteTokenInfo,
      MemoryStorage.DeleteTokenInfo, NewKeyringStorage, idealKeyring, h]
    cases hk : m.data keyTokenInfo <;> simp [errorsIs, GoError.is, GoMap.delete, h]
    intro j
    by_cases hj : j = keyTokenInfo <;> simp [hj, hk]
  case GetClientID =>
    simp only [KeyringStorage.step, MemoryStorage.step, KeyringStorage.GetClientID,
      MemoryStorage.GetClientID, NewKeyringStorage, idealKeyring, h]
    cases m.data keyClientID <;> simp [h]
  case SetClientID id =>
    simp [KeyringStorage.step, MemoryStorage.step, KeyringStorage.SetClientID,
      MemoryStorage.SetClientID, NewKeyringStorage, idealKeyring, GoMap.insert, h]
  case DeleteClientID =>
    simp only [KeyringStorage.step, MemoryStorage.step, KeyringStorage.DeleteClientID,
      MemoryStorage.DeleteClientID, NewKeyringStorage, idealKeyring, h]
    cases hk : m.data keyClientID <;> simp [errorsIs, GoError.is, GoMap.delete, h]
    intro j
    by_cases hj : j = keyClientID <;> simp [hj, hk]
  case GetClientSecret =>
    simp only [KeyringStorage.step, MemoryStorage.step, KeyringStorage.GetClientSecret,
      MemoryStorage.GetClientSecret, NewKeyringStorage, idealKeyring, h]
    cases m.data keyClientSecret <;> simp [h]
  case SetClientSecret secret =>
    simp [KeyringStorage.step, MemoryStorage.step, KeyringStorage.SetClientSecret,
      MemoryStorage.SetClientSecret, NewKeyringStorage, idealKeyring, GoMap.insert, h]
  case DeleteClientSecret =>
    simp only [KeyringStorage.step, MemoryStorage.step, KeyringStorage.DeleteClientSecret,
      MemoryStorage.DeleteClientSecret, NewKeyringStorage, idealKeyring, h]
    cases hk : m.data keyClientSecret <;> simp [errorsIs, GoError.is, GoMap.delete, h]
    intro j
    by_cases hj : j = keyClientSecret <;> simp [hj, hk]

theorem parity_exec {TokenInfo : Type} (J : JSON TokenInfo) (name : String)
    (ops : List (Op TokenInfo)) :
    ∀ (m : MemoryStorage) (w : IdealState), (∀ j, w name j = m.data j) →
      (NewKeyringStorage name).exec idealKeyring J w ops = m.exec J ops := by
  induction ops with
  | nil => intro m w _; rfl
  | cons op ops ih =>
    intro m w h
    simp only [KeyringStorage.exec, MemoryStorage.exec]
    rw [(parity_step J name m w h op).1, ih _ _ (parity_step J name m w h op).2]

/-- C9. Backend parity: over the ideal credential service (a key/value map whose `Get` and
`Delete` of a missing entry report `keyring.ErrNotFound` and whose other calls succeed), started
empty, the OS backend returns for every finite sequence of the twelve operations the same
results, call by call, as the in-memory backend started from `NewMemoryStorage`; a get of a kind
with no entry returns the not-found result and a delete returns no error on both. -/
theorem backend_parity {TokenInfo : Type} (J : JSON TokenInfo) (ServiceName : String)
    (ops : List (Op TokenInfo)) (k : Kind) :
    (NewKeyringStorage ServiceName).exec idealKeyring J IdealState.empty ops
      = NewMemoryStorage.exec J ops
    ∧ (NewKeyringStorage ServiceName).exec idealKeyring J IdealState.empty [Op.get k]
      = [Result.notFound k]
    ∧ (NewKeyringStorage ServiceName).exec idealKeyring J IdealState.empty (ops ++ [Op.delete k])
      = NewMemoryStorage.exec J ops ++ [Result.err none] := by
  refine ⟨parity_exec J ServiceName ops NewMemoryStorage IdealState.empty (fun _ => rfl), ?_, ?_⟩
  · rw [parity_exec J ServiceName _ NewMemoryStorage IdealState.empty (fun _ => rfl)]
    cases k <;> rfl
  · rw [parity_exec J ServiceName _ NewMemoryStorage IdealState.empty (fun _ => rfl)]
    generalize NewMemoryStorage = m
    induction ops generalizing m with
    | nil => cases k <;> rfl
    | cons op ops ih => simp [MemoryStorage.exec, ih]

/-! ## Addressing of the OS backend -/

/-- C10. OS backend addressing and pass-through: every operation of a `KeyringStorage` built by
`NewKeyringStorage` sends the platform service exactly the call the spec assigns to it, at the
service name fixed at construction and the key name of its kind; the four key names are
`api_key`, `token_info`, `client_id`, `client_secret`, pairwise distinct; for the three string
kinds get and set return the platform results unchanged. -/
theorem keyring_addressing {σ : Type} {TokenInfo : Type} (P : Keyring σ) (J : JSON TokenInfo)
    (ServiceName : String) (w : σ) (log : List Call) (op : Op TokenInfo) (v : String) :
    ((NewKeyringStorage ServiceName).step P.traced J (log, w) op).2.1
      = log ++ specCall J ServiceName op
    ∧ [keyAPIKey, keyTokenInfo, keyClientID, keyClientSecret]
      = ["api_key", "token_info", "client_id", "client_secret"]
    ∧ [keyAPIKey, keyTokenInfo, keyClientID, keyClientSecret].Nodup
    ∧ (NewKeyringStorage ServiceName).GetAPIKey P w = P.Get w ServiceName "api_key"
    ∧ (NewKeyringStorage ServiceName).SetAPIKey P w v = P.Set w ServiceName "api_key" v
    ∧ (NewKeyringStorage ServiceName).GetClientID P w = P.Get w ServiceName "client_id"
    ∧ (NewKeyringStorage ServiceName).SetClientID P w v = P.Set w ServiceName "client_id" v
    ∧ (NewKeyringStorage ServiceName).GetClientSecret P w = P.Get w ServiceName "client_secret"
    ∧ (NewKeyringStorage ServiceName).SetClientSecret P w v
      = P.Set w ServiceName "client_secret" v := by
  refine ⟨?_, rfl, by decide, rfl, rfl, rfl, rfl, rfl, rfl⟩
  cases op
  case SetTokenInfo info =>
    simp only [KeyringStorage.step, KeyringStorage.SetTokenInfo, specCall]
    cases J.Marshal info <;> simp [Keyring.traced, NewKeyringStorage, keyTokenInfo]
  case GetTokenInfo =>
    simp only [KeyringStorage.step, KeyringStorage.GetTokenInfo, specCall, Keyring.traced,
      NewKeyringStorage, keyTokenInfo]
    rcases P.Get w ServiceName "token_info" with ⟨⟨data, err⟩, w'⟩
    cases err with
    | some err => rfl
    | none => cases hu : J.Unmarshal data <;> simp [hu]
  all_goals
    simp only [KeyringStorage.step, KeyringStorage.GetAPIKey, KeyringStorage.SetAPIKey,
      KeyringStorage.DeleteAPIKey, KeyringStorage.DeleteTokenInfo, KeyringStorage.GetClientID,
      KeyringStorage.SetClientID, KeyringStorage.DeleteClientID, KeyringStorage.GetClientSecret,
      KeyringStorage.SetClientSecret, KeyringStorage.DeleteClientSecret, specCall,
      Keyring.traced, NewKeyringStorage, keyAPIKey, keyTokenInfo, keyClientID, keyClientSecret]
  all_goals split <;> rfl

/-! ## Idempotence and independence of the kinds -/

theorem GoMap.insert_insert (m : GoMap) (k v : String) :
    (m.insert k v).insert k v = m.insert k v := by
  funext j
  by_cases hj : j = k <;> simp [GoMap.insert, hj]

/-- The get of kind `k` reads only the entry stored under the key name of `k`. -/
theorem MemoryStorage.Get_congr {TokenInfo : Type} (J : JSON TokenInfo) (s t : MemoryStorage)
    (k : Kind) (h : s.data k.key = t.data k.key) : s.Get J k = t.Get J k := by
  cases k <;>
    simp_all [MemoryStorage.Get, MemoryStorage.step, Op.get, Kind.key,
      MemoryStorage.GetAPIKey, MemoryStorage.GetTokenInfo, MemoryStorage.GetClientID,
      MemoryStorage.GetClientSecret]

/-- A call changes at most the entry stored under the key name of its own kind. -/
theorem MemoryStorage.step_data_other {TokenInfo : Type} (J : JSON TokenInfo)
    (s : MemoryStorage) (op : Op TokenInfo) (j : String) (h : j ≠ op.kind.key) :
    (s.step J op).2.data j = s.data j := by
  cases op <;>
    simp_all [MemoryStorage.step, Op.kind, Kind.key, MemoryStorage.SetAPIKey,
      MemoryStorage.DeleteAPIKey, MemoryStorage.SetTokenInfo, MemoryStorage.DeleteTokenInfo,
      MemoryStorage.SetClientID, MemoryStorage.DeleteClientID, MemoryStorage.SetClientSecret,
      MemoryStorage.DeleteClientSecret, GoMap.insert, GoMap.delete]
  case SetTokenInfo info =>
    split <;> simp_all [GoMap.insert]

/-- C11. Set is idempotent on the in-memory backend: in every storage state, for each of the
four kinds and every value, the storage after two identical sets is the storage after one,
the second set returns the same error as the first, and every get of every kind returns the
same result after two sets as after one. -/
theorem memory_set_idempotent {TokenInfo : Type} (J : JSON TokenInfo) (s : MemoryStorage)
    (v : String) (info : Option TokenInfo) (k : Kind) :
    (((s.SetAPIKey v).2.SetAPIKey v) = (s.SetAPIKey v)
      ∧ ((s.SetAPIKey v).2.SetAPIKey v).2.Get J k = (s.SetAPIKey v).2.Get J k)
    ∧ (((s.SetTokenInfo J info).2.SetTokenInfo J info) = (s.SetTokenInfo J info)
      ∧ ((s.SetTokenInfo J info).2.SetTokenInfo J info).2.Get J k
          = (s.SetTokenInfo J info).2.Get J k)
    ∧ (((s.SetClientID v).2.SetClientID v) = (s.SetClientID v)
      ∧ ((s.SetClientID v).2.SetClientID v).2.Get J k = (s.SetClientID v).2.Get J k)
    ∧ (((s.SetClientSecret v).2.SetClientSecret v) = (s.SetClientSecret v)
      ∧ ((s.SetClientSecret v).2.SetClientSecret v).2.Get J k
          = (s.SetClientSecret v).2.Get J k) := by
  have h1 : (s.SetAPIKey v).2.SetAPIKey v = s.SetAPIKey v := by
    simp [MemoryStorage.SetAPIKey, GoMap.insert_insert]
  have h2 : (s.SetTokenInfo J info).2.SetTokenInfo J info = s.SetTokenInfo J info := by
    unfold MemoryStorage.SetTokenInfo
    cases hm : J.Marshal info <;> simp [hm, GoMap.insert_insert]
  have h3 : (s.SetClientID v).2.SetClientID v = s.SetClientID v := by
    simp [MemoryStorage.SetClientID, GoMap.insert_insert]
  have h4 : (s.SetClientSecret v).2.SetClientSecret v = s.SetClientSecret v := by
    simp [MemoryStorage.SetClientSecret, GoMap.insert_insert]
  exact ⟨⟨h1, by rw [h1]⟩, ⟨h2, by rw [h2]⟩, ⟨h3, by rw [h3]⟩, ⟨h4, by rw [h4]⟩⟩

/-- C17. Kind independence on the in-memory backend: in every storage state, a call that
addresses kind `k` (its set with any value, its delete, its get) leaves the result of the get
of every other kind as it was. -/
theorem memory_kind_frame {TokenInfo : Type} (J : JSON TokenInfo) (s : MemoryStorage)
    (op : Op TokenInfo) (k : Kind) (h : op.kind ≠ k) :
    (s.step J op).2.Get J k = s.Get J k :=
  MemoryStorage.Get_congr J _ _ k
    (MemoryStorage.step_data_other J s op k.key (Kind.key_ne (Ne.symm h)))

/-- Witness of C17: with a client id and a token stored, setting the API key, deleting the
client secret and replacing the token leave the get of the client id as it was. -/
theorem memory_kind_frame_witness :
    ((((NewMemoryStorage.SetClientID "id1").2.step SampleTokenInfo.codec
        (Op.SetAPIKey "lin_api_abc123")).2.Get SampleTokenInfo.codec Kind.client_id
      = Result.str "id1" none)
    ∧ (((NewMemoryStorage.SetClientID "id1").2.step SampleTokenInfo.codec
        Op.DeleteClientSecret).2.Get SampleTokenInfo.codec Kind.client_id
      = Result.str "id1" none))
    ∧ (((NewMemoryStorage.SetClientID "id1").2.step SampleTokenInfo.codec
        (Op.SetTokenInfo (some ⟨"tok1", "", ""⟩))).2.Get SampleTokenInfo.codec Kind.client_id
      = Result.str "id1" none) :=
  ⟨⟨(memory_kind_frame SampleTokenInfo.codec (NewMemoryStorage.SetClientID "id1").2
        (Op.SetAPIKey "lin_api_abc123") Kind.client_id (by decide)).trans (by rfl),
      (memory_kind_frame SampleTokenInfo.codec (NewMemoryStorage.SetClientID "id1").2
        Op.DeleteClientSecret Kind.client_id (by decide)).trans (by rfl)⟩,
    (memory_kind_frame SampleTokenInfo.codec (NewMemoryStorage.SetClientID "id1").2
      (Op.SetTokenInfo (some ⟨"tok1", "", ""⟩)) Kind.client_id (by decide)).trans (by rfl)⟩

end Auth

namespace Display

/-! ## Lemmas on slices, repetition and joining -/

theorem slice_zero {α : Type} (xs : List α) (n : Int) (h0 : 0 ≤ n)
    (hn : n ≤ (xs.length : Int)) : slice xs 0 n = some (xs.take n.toNat) := by
  simp [slice, h0, hn]

theorem slice_to_end {α : Type} (xs : List α) (lo : Int) (h0 : 0 ≤ lo)
    (hn : lo ≤ (xs.length : Int)) :
    slice xs lo (xs.length : Int) = some (xs.drop lo.toNat) := by
  simp [slice, h0, hn]

theorem copies_data (s : String) (n : Nat) :
    (copies s n).data = (List.replicate n s.data).flatten := by
  induction n with
  | zero => rfl
  | succ n ih =>
    simp only [copies, String.data_append, ih, List.replicate_succ', List.flatten_append,
      List.flatten_cons, List.flatten_nil, List.append_nil]

theorem copies_space (n : Nat) : copies " " n = String.mk (List.replicate n ' ') := by
  apply String.ext
  rw [copies_data]
  induction n with
  | zero => rfl
  | succ n ih => simp only [List.replicate_succ, List.flatten_cons, ih]; rfl

theorem concatWith_append_head (sep a b : String) (qs : List String) :
    concatWith sep ((a ++ b) :: qs) = a ++ concatWith sep (b :: qs) := by
  cases qs with
  | nil => rfl
  | cons q qs => simp only [concatWith, String.append_assoc]

theorem Join_eq_concatWith (sep : String) (elems : List String) :
    Join elems sep = concatWith sep elems := by
  cases elems with
  | nil => rfl
  | cons e es =>
    simp only [Join]
    induction es generalizing e with
    | nil => rfl
    | cons q qs ih =>
      rw [List.foldl_cons, ih, String.append_assoc, concatWith_append_head,
        concatWith_append_head]
      show _ = e ++ sep ++ concatWith sep (q :: qs)
      rw [String.append_assoc]

theorem nonEmpty_loop (parts acc : List String) :
    parts.foldl (fun acc p => if p ≠ "" then acc ++ [p] else acc) acc
      = acc ++ parts.filter (fun p => decide (p ≠ "")) := by
  induction parts generalizing acc with
  | nil => simp
  | cons p ps ih =>
    rw [List.foldl_cons, ih, List.filter_cons]
    by_cases hp : p = "" <;> simp [hp]

/-! ## Truncation and padding -/

/-- Counterexample to C12 as stated: with `maxLen = 2` the five runes of `hello` come back
unchanged. -/
theorem truncate_small_limit_counterexample :
    Truncate "hello" 2 = some "hello" ∧ ¬ (RuneCountInString "hello" ≤ 2) := by
  decide

/-- C12, amended. For every string `s` and every `maxLen > 3`, `Truncate` returns a string of
at most `maxLen` runes: `s` itself when `s` has at most `maxLen` runes, and otherwise the first
`maxLen - 3` runes of `s` followed by `...`, which is exactly `maxLen` runes.  For `maxLen <= 3`
it returns `s` unchanged. -/
theorem truncate_bound (s : String) (maxLen : Int) :
    (3 < maxLen → ∃ r, Truncate s maxLen = some r ∧ RuneCountInString r ≤ maxLen)
    ∧ (3 < maxLen → RuneCountInString s ≤ maxLen → Truncate s maxLen = some s)
    ∧ (3 < maxLen → maxLen < RuneCountInString s →
        Truncate s maxLen = some (String.mk (s.data.take (maxLen - 3).toNat) ++ "...")
        ∧ RuneCountInString (String.mk (s.data.take (maxLen - 3).toNat) ++ "...") = maxLen)
    ∧ (maxLen ≤ 3 → Truncate s maxLen = some s) := by
  have hshort : 3 < maxLen → RuneCountInString s ≤ maxLen → Truncate s maxLen = some s := by
    intro h3 hs
    simp [Truncate, not_le.mpr h3, hs]
  have hlong : 3 < maxLen → maxLen < RuneCountInString s →
      Truncate s maxLen = some (String.mk (s.data.take (maxLen - 3).toNat) ++ "...")
      ∧ RuneCountInString (String.mk (s.data.take (maxLen - 3).toNat) ++ "...") = maxLen := by
    intro h3 hs
    have hs' : maxLen < (s.data.length : Int) := hs
    constructor
    · have hsl : slice s.data 0 (maxLen - 3) = some (s.data.take (maxLen - 3).toNat) :=
        slice_zero s.data (maxLen - 3) (by omega) (by omega)
      simp [Truncate, not_le.mpr h3, not_le.mpr hs, hsl]
    · simp only [RuneCountInString, String.data_append, List.length_append, List.length_take]
      have h3' : "...".data.length = 3 := rfl
      rw [h3']
      omega
  refine ⟨?_, hshort, hlong, ?_⟩
  · intro h3
    by_cases hs : RuneCountInString s ≤ maxLen
    · exact ⟨s, hshort h3 hs, hs⟩
    · exact ⟨_, (hlong h3 (not_le.mp hs)).1, le_of_eq (hlong h3 (not_le.mp hs)).2⟩
  · intro h3
    simp [Truncate, h3]

/-- Witness of C12, amended: eleven runes cut to eight, a string that fits, and a limit of
three. -/
theorem truncate_bound_witness :
    (Truncate "hello world" 8 = some "hello..." ∧ RuneCountInString "hello..." = 8)
    ∧ Truncate "hello" 8 = some "hello"
    ∧ Truncate "hello" 3 = some "hello" :=
  ⟨(truncate_bound "hello world" 8).2.2.1 (by decide) (by decide),
    (truncate_bound "hello" 8).2.1 (by decide) (by decide),
    (truncate_bound "hello" 3).2.2.2 (by decide)⟩

/-- C13. `TruncateMiddle` for `maxLen > 5`: a string of at most `maxLen` runes is returned
unchanged; a longer one becomes its first `h` runes, then `...`, then its last `h` runes, with
`h = (maxLen - 3) / 2`, which is `2 * h + 3 <= maxLen` runes.  For `maxLen <= 5` the result is
that of `Truncate`. -/
theorem truncate_middle_spec (s : String) (maxLen : Int) :
    (5 < maxLen → RuneCountInString s ≤ maxLen → TruncateMiddle s maxLen = some s)
    ∧ (5 < maxLen → maxLen < RuneCountInString s →
        TruncateMiddle s maxLen
          = some (String.mk (s.data.take ((maxLen - 3) / 2).toNat) ++ "..."
              ++ String.mk (s.data.drop (s.data.length - ((maxLen - 3) / 2).toNat)))
        ∧ RuneCountInString (String.mk (s.data.take ((maxLen - 3) / 2).toNat) ++ "..."
              ++ String.mk (s.data.drop (s.data.length - ((maxLen - 3) / 2).toNat)))
            = 2 * ((maxLen - 3) / 2) + 3
        ∧ 2 * ((maxLen - 3) / 2) + 3 ≤ maxLen)
    ∧ (maxLen ≤ 5 → TruncateMiddle s maxLen = Truncate s maxLen) := by
  refine ⟨?_, ?_, ?_⟩
  · intro h5 hs
    have hs' : (s.data.length : Int) ≤ maxLen := hs
    unfold TruncateMiddle
    rw [if_neg (not_le.mpr h5)]
    dsimp only
    rw [if_pos hs']
  · intro h5 hs
    have hs' : maxLen < (s.data.length : Int) := hs
    have hdiv : (maxLen - 3).tdiv 2 = (maxLen - 3) / 2 :=
      Int.tdiv_eq_ediv (by omega) (by omega)
    have hh0 : 0 ≤ (maxLen - 3) / 2 := by omega
    have hhn : (maxLen - 3) / 2 ≤ (s.data.length : Int) := by omega
    have hhead : slice s.data 0 ((maxLen - 3) / 2) = some (s.data.take ((maxLen - 3) / 2).toNat) :=
      slice_zero s.data _ hh0 hhn
    have hlo : ((s.data.length : Int) - (maxLen - 3) / 2).toNat
        = s.data.length - ((maxLen - 3) / 2).toNat := by omega
    have htail : slice s.data ((s.data.length : Int) - (maxLen - 3) / 2) (s.data.length : Int)
        = some (s.data.drop (s.data.length - ((maxLen - 3) / 2).toNat)) := by
      rw [slice_to_end s.data _ (by omega) (by omega), hlo]
    refine ⟨?_, ?_, by omega⟩
    · unfold TruncateMiddle
      rw [if_neg (not_le.mpr h5)]
      dsimp only
      rw [if_neg (not_le.mpr hs'), hdiv, hhead, htail]
      rfl
    · simp only [RuneCountInString, String.data_append, List.length_append, List.length_take,
        List.length_drop]
      have h3' : "...".data.length = 3 := rfl
      rw [h3']
      omega
  · intro h5
    simp [TruncateMiddle, h5]

/-- Witness of C13: twelve runes cut to nine with `h = 3`, a string that fits, and a limit of
five. -/
theorem truncate_middle_spec_witness :
    TruncateMiddle "hello world!" 9 = some "hel...ld!"
    ∧ TruncateMiddle "hello" 9 = some "hello"
    ∧ TruncateMiddle "hello world!" 5 = Truncate "hello world!" 5 :=
  ⟨((truncate_middle_spec "hello world!" 9).2.1 (by decide) (by decide)).1,
    (truncate_middle_spec "hello" 9).1 (by decide) (by decide),
    (truncate_middle_spec "hello world!" 5).2.2 (by decide)⟩

/-- C14. `Pad` and `PadLeft` for a string `s` of `n` runes and any integer `width`: `Pad`
returns `s` followed by `max(0, width - n)` spaces and `PadLeft` returns as many spaces followed
by `s`; neither panics on a negative repeat count, and both results have `max(n, width)`
runes. -/
theorem pad_spec (s : String) (width : Int) :
    Pad s width
      = some (s ++ String.mk (List.replicate (width - RuneCountInString s).toNat ' '))
    ∧ PadLeft s width
      = some (String.mk (List.replicate (width - RuneCountInString s).toNat ' ') ++ s)
    ∧ RuneCountInString (s ++ String.mk (List.replicate (width - RuneCountInString s).toNat ' '))
      = max (RuneCountInString s) width
    ∧ RuneCountInString (String.mk (List.replicate (width - RuneCountInString s).toNat ' ') ++ s)
      = max (RuneCountInString s) width
    ∧ (RuneCountInString s < width →
        Repeat " " (width - RuneCountInString s)
          = some (String.mk (List.replicate (width - RuneCountInString s).toNat ' '))) := by
  have hrep : RuneCountInString s < width →
      Repeat " " (width - RuneCountInString s)
        = some (String.mk (List.replicate (width - RuneCountInString s).toNat ' ')) := by
    intro h
    simp [Repeat, not_lt.mpr (le_of_lt (sub_pos.mpr h)), copies_space]
  have hlen : ∀ n : Nat, ((n : Int) + ((width - (n : Int)).toNat : Int)) = max (n : Int) width := by
    intro n
    omega
  refine ⟨?_, ?_, ?_, ?_, hrep⟩
  · by_cases h : RuneCountInString s ≥ width
    · have h0 : (width - RuneCountInString s).toNat = 0 := by omega
      have he : String.mk ([] : List Char) = "" := rfl
      simp [Pad, h, h0, he]
    · simp [Pad, h, hrep (not_le.mp h)]
  · by_cases h : RuneCountInString s ≥ width
    · have h0 : (width - RuneCountInString s).toNat = 0 := by omega
      have he : String.mk ([] : List Char) = "" := rfl
      simp [PadLeft, h, h0, he]
    · simp [PadLeft, h, hrep (not_le.mp h)]
  · simp only [RuneCountInString, String.data_append, List.length_append, List.length_replicate,
      Nat.cast_add]
    exact hlen _
  · simp only [RuneCountInString, String.data_append, List.length_append, List.length_replicate,
      Nat.cast_add]
    rw [add_comm]
    exact hlen _

/-- Witness of C14: padding two runes to four, and a negative width. -/
theorem pad_spec_witness :
    Pad "ab" 4 = some "ab  " ∧ PadLeft "ab" 4 = some "  ab" ∧ Pad "ab" (-1) = some "ab"
    ∧ Repeat " " (4 - RuneCountInString "ab") = some "  " :=
  ⟨(pad_spec "ab" 4).1, (pad_spec "ab" 4).2.1, (pad_spec "ab" (-1)).1,
    (pad_spec "ab" 4).2.2.2.2 (by decide)⟩

/-! ## Joining -/

/-- C16. `JoinNonEmpty` returns the concatenation, in the original order, of the parts that are
not the empty string, with `sep` between consecutive ones; it returns the empty string when
every part is empty, and an empty string inserted anywhere among the parts does not change the
result. -/
theorem join_non_empty_spec (sep : String) (parts xs ys : List String) :
    JoinNonEmpty sep parts = concatWith sep (parts.filter (fun p => decide (p ≠ "")))
    ∧ ((∀ p ∈ parts, p = "") → JoinNonEmpty sep parts = "")
    ∧ JoinNonEmpty sep (xs ++ "" :: ys) = JoinNonEmpty sep (xs ++ ys) := by
  have h : ∀ ps : List String,
      JoinNonEmpty sep ps = concatWith sep (ps.filter (fun p => decide (p ≠ ""))) := by
    intro ps
    simp only [JoinNonEmpty, nonEmpty_loop, List.nil_append, Join_eq_concatWith]
  refine ⟨h parts, ?_, ?_⟩
  · intro hall
    have hf : parts.filter (fun p => decide (p ≠ "")) = [] := by
      rw [List.filter_eq_nil_iff]
      intro p hp
      simp [hall p hp]
    rw [h, hf]
    rfl
  · rw [h, h]
    simp [List.filter_append]

/-- Witness of C16: two empty parts among two non-empty ones, and parts that are all empty. -/
theorem join_non_empty_spec_witness :
    JoinNonEmpty ", " ["a", "", "b", ""] = "a, b" ∧ JoinNonEmpty ", " ["", ""] = "" :=
  ⟨(join_non_empty_spec ", " ["a", "", "b", ""] [] []).1.trans (by decide),
    (join_non_empty_spec ", " ["", ""] [] []).2.1 (by decide)⟩

/-! ## Initials -/

theorem fieldsFrom_ne_nil (cs : List Char) :
    ∀ cur w : List Char, w ∈ fieldsFrom cur cs → w ≠ [] := by
  induction cs with
  | nil =>
    intro cur w hw
    by_cases hc : cur = []
    · simp [fieldsFrom, hc] at hw
    · simp [fieldsFrom, hc] at hw
      rw [hw]
      exact hc
  | cons c cs ih =>
    intro cur w hw
    by_cases hsp : IsSpace c = true
    · by_cases hc : cur = []
      · simp only [fieldsFrom, hsp, hc, if_true] at hw
        exact ih [] w hw
      · simp only [fieldsFrom, hsp, hc, if_true, if_false, List.mem_cons] at hw
        rcases hw with hw | hw
        · rw [hw]
          exact hc
        · exact ih [] w hw
    · simp only [fieldsFrom, hsp, Bool.false_eq_true, if_false] at hw
      exact ih _ w hw

theorem fieldsFrom_eq_nil (cs : List Char) :
    ∀ cur : List Char, fieldsFrom cur cs = [] ↔ cur = [] ∧ ∀ c ∈ cs, IsSpace c = true := by
  induction cs with
  | nil =>
    intro cur
    by_cases hc : cur = [] <;> simp [fieldsFrom, hc]
  | cons c cs ih =>
    intro cur
    by_cases hsp : IsSpace c = true
    · by_cases hc : cur = []
      · simp [fieldsFrom, hsp, hc, ih]
      · simp [fieldsFrom, hsp, hc]
    · simp [fieldsFrom, hsp, ih]

/-- Every field has a first rune. -/
theorem Fields_mem (s w : String) (h : w ∈ Fields s) : ∃ f fs, w = String.mk (f :: fs) := by
  simp only [Fields, List.mem_map] at h
  obtain ⟨cs, hcs, rfl⟩ := h
  cases cs with
  | nil => exact absurd rfl (fieldsFrom_ne_nil _ _ _ hcs)
  | cons f fs => exact ⟨f, fs, rfl⟩

/-- A string has no field exactly when all its runes are spaces. -/
theorem Fields_eq_nil (s : String) : Fields s = [] ↔ ∀ c ∈ s.data, IsSpace c = true := by
  simp [Fields, fieldsFrom_eq_nil]

theorem index_zero {α : Type} (x : α) (xs : List α) : index (x :: xs) 0 = some x := by
  have h : (0 : Int) < ((x :: xs).length : Int) := by
    simp only [List.length_cons, Nat.cast_add, Nat.cast_one]
    omega
  simp [index, h]

theorem index_last {α : Type} (x y : α) (xs : List α) :
    index (x :: y :: xs) (((x :: y :: xs).length : Int) - 1) = (y :: xs).getLast? := by
  have h0 : (0 : Int) ≤ ((x :: y :: xs).length : Int) - 1 := by
    simp only [List.length_cons, Nat.cast_add, Nat.cast_one]
    omega
  have hn : (((x :: y :: xs).length : Int) - 1).toNat = (y :: xs).length := by
    simp only [List.length_cons, Nat.cast_add, Nat.cast_one]
    omega
  rw [index, if_pos ⟨h0, by omega⟩, hn, List.getLast?_eq_getElem?]
  simp

theorem Initials_none (upper : Char → Char) (name : String) (h : Fields name = []) :
    Initials upper name = some "--" := by
  unfold Initials
  by_cases hn : name = ""
  · rw [if_pos hn]
  · rw [if_neg hn]
    simp [h]

theorem Initials_one (upper : Char → Char) (name w : String) (h : Fields name = [w]) :
    Initials upper name = some (ToUpper upper (String.mk (w.data.take 2))) := by
  have hn : name ≠ "" := by
    intro hn
    rw [hn, show Fields "" = [] from rfl] at h
    cases h
  unfold Initials
  rw [if_neg hn]
  dsimp only
  rw [h, if_neg (by simp), if_pos (by rfl), index_zero]
  by_cases h2 : w.data.length ≥ 2
  · have hsl : slice w.data 0 2 = some (w.data.take 2) :=
      slice_zero w.data 2 (by omega) (by exact_mod_cast h2)
    show (if w.data.length ≥ 2 then _ else _) = _
    rw [if_pos h2, hsl]
    rfl
  · show (if w.data.length ≥ 2 then _ else _) = _
    rw [if_neg h2, List.take_of_length_le (by omega)]
    rfl

theorem Initials_many (upper : Char → Char) (name p q : String) (ps : List String)
    (f l : Char) (fs ls : List Char) (h : Fields name = p :: q :: ps)
    (hf : p = String.mk (f :: fs)) (hl : (q :: ps).getLast? = some (String.mk (l :: ls))) :
    Initials upper name = some (String.mk [upper f, upper l]) := by
  have hn : name ≠ "" := by
    intro hn
    rw [hn, show Fields "" = [] from rfl] at h
    cases h
  unfold Initials
  rw [if_neg hn]
  dsimp only
  rw [h, if_neg (by simp), if_neg (by simp), index_zero, index_last, hl, hf]
  show (index (f :: fs) 0 >>= fun f0 => index (l :: ls) 0 >>= fun l0 => _) = _
  rw [index_zero, index_zero]
  rfl

/-- C15. `Initials` never panics and returns one or two runes, for every string.  It returns
`--` when every rune of the name is a space; for a name of a single word, the upper-cased first
two runes of the word (the upper-cased word when it has one rune); for a name of two or more
words, the upper-cased first rune of the first word followed by the upper-cased first rune of
the last word. -/
theorem initials_spec (upper : Char → Char) (name : String) :
    (∃ r, Initials upper name = some r ∧ (r.data.length = 1 ∨ r.data.length = 2))
    ∧ ((∀ c ∈ name.data, IsSpace c = true) → Initials upper name = some "--")
    ∧ (∀ w, Fields name = [w] →
        Initials upper name = some (ToUpper upper (String.mk (w.data.take 2))))
    ∧ (∀ parts, Fields name = parts → 2 ≤ parts.length →
        ∃ f fs l ls, parts.head? = some (String.mk (f :: fs))
          ∧ parts.getLast? = some (String.mk (l :: ls))
          ∧ Initials upper name = some (String.mk [upper f, upper l])) := by
  have hmany : ∀ parts, Fields name = parts → 2 ≤ parts.length →
      ∃ f fs l ls, parts.head? = some (String.mk (f :: fs))
        ∧ parts.getLast? = some (String.mk (l :: ls))
        ∧ Initials upper name = some (String.mk [upper f, upper l]) := by
    intro parts hp hlen
    match parts, hp, hlen with
    | p :: q :: ps, hp, _ =>
      obtain ⟨f, fs, hf⟩ := Fields_mem name p (by rw [hp]; simp)
      have hmem : (q :: ps).getLast (by simp) ∈ Fields name := by
        rw [hp]
        exact List.mem_cons_of_mem _ (List.getLast_mem _)
      obtain ⟨l, ls, hl⟩ := Fields_mem name _ hmem
      have hlast : (q :: ps).getLast? = some (String.mk (l :: ls)) := by
        rw [List.getLast?_eq_getLast _ (by simp), hl]
      exact ⟨f, fs, l, ls, by rw [hf]; rfl, by rw [List.getLast?_cons_cons, hlast],
        Initials_many upper name p q ps f l fs ls hp hf hlast⟩
  refine ⟨?_, fun hsp => Initials_none upper name ((Fields_eq_nil name).mpr hsp),
    fun w hw => Initials_one upper name w hw, hmany⟩
  match hF : Fields name with
  | [] => exact ⟨_, Initials_none upper name hF, Or.inr rfl⟩
  | [w] =>
    refine ⟨_, Initials_one upper name w hF, ?_⟩
    obtain ⟨f, fs, hf⟩ := Fields_mem name w (by rw [hF]; simp)
    rw [hf]
    cases fs with
    | nil => exact Or.inl rfl
    | cons g gs => exact Or.inr rfl
  | p :: q :: ps =>
    obtain ⟨f, fs, l, ls, _, _, h⟩ := hmany _ hF (by simp)
    exact ⟨_, h, Or.inr rfl⟩

/-- Witness of C15: an empty name, a name of spaces, a word of one rune, a single word and a
name of three words. -/
theorem initials_spec_witness :
    Initials Char.toUpper "" = some "--"
    ∧ Initials Char.toUpper "   " = some "--"
    ∧ Initials Char.toUpper " j" = some "J"
    ∧ Initials Char.toUpper "juan" = some "JU"
    ∧ (∃ f fs l ls, ["juan", "de", "bermudez"].head? = some (String.mk (f :: fs))
        ∧ ["juan", "de", "bermudez"].getLast? = some (String.mk (l :: ls))
        ∧ Initials Char.toUpper "juan de bermudez"
            = some (String.mk [Char.toUpper f, Char.toUpper l])) :=
  ⟨(initials_spec Char.toUpper "").2.1 (by decide),
    (initials_spec Char.toUpper "   ").2.1 (by decide),
    (initials_spec Char.toUpper " j").2.2.1 "j" (by decide),
    (initials_spec Char.toUpper "juan").2.2.1 "juan" (by decide),
    (initials_spec Char.toUpper "juan de bermudez").2.2.2 ["juan", "de", "bermudez"]
      (by decide) (by decide)⟩

end Display
